import Mathlib

/-! # socket.io-go-parser: the text-frame decoder

A shallow embedding of `parser/type.go` and `parser/decoder.go`.

Go strings and buffers are byte sequences; a byte is a `Nat` and a string a
`List Nat`.  The external collaborators of the decoder are explicit:

* `types.StringBuffer` (engine.io-go-parser, same behaviour as `bytes.Buffer`)
  is the structure `StringBuffer` below;
* `strconv.ParseUint(s, 10, 64)` is `ParseUint`;
* `encoding/json`'s `Decoder.Decode` is a parameter `jsonDecode` of the
  functions that call it (with `goJsonDecode` as a concrete instance, and
  `goJsonEncode` for `json.Marshal`);
* the binary reconstructor of `binary.go` is a parameter
  `ops : ReconstructorOps R`.
-/

namespace parser

/-! ## Data model -/

/-- Values of Go's `any` that a payload can hold: what `encoding/json` decodes
into an `any` (nil, bool, float64, string, `[]any`, `map[string]any`) plus raw
binary data.  A number keeps the bytes of its literal; an object keeps its
entries as a list. -/
inductive Value where
  | nil
  | bool (b : Bool)
  | number (lit : List Nat)
  | string (s : List Nat)
  | array (elems : List Value)
  | object (fields : List (List Nat × Value))
  | binary (bytes : List Nat)

/-- The Go type `PacketType`, a byte. -/
abbrev PacketType := Nat

/-- The Go struct `Packet`; `Data` is `Value.nil` when absent. -/
structure Packet where
  Type_ : PacketType
  Nsp : List Nat
  Data : Value
  ID : Option Nat
  Attachments : Option Nat

/-- The bytes of an ASCII string literal. -/
def ascii (s : String) : List Nat := s.toList.map Char.toNat

def Connect : PacketType := 48      -- '0'
def Disconnect : PacketType := 49   -- '1'
def Event : PacketType := 50        -- '2'
def Ack : PacketType := 51          -- '3'
def ConnectError : PacketType := 52 -- '4'
def BinaryEvent : PacketType := 53  -- '5'
def BinaryAck : PacketType := 54    -- '6'

/-- The method `PacketType.Valid`: `t >= '0' && t <= '6'`. -/
def PacketType.Valid (t : PacketType) : Bool :=
  decide (t ≥ 48) && decide (t ≤ 54)

/-- The method `PacketType.String`. -/
def PacketType.String (t : PacketType) : String :=
  if t = Connect then "CONNECT"
  else if t = Disconnect then "DISCONNECT"
  else if t = Event then "EVENT"
  else if t = Ack then "ACK"
  else if t = ConnectError then "CONNECT_ERROR"
  else if t = BinaryEvent then "BINARY_EVENT"
  else if t = BinaryAck then "BINARY_ACK"
  else "UNKNOWN"

/-- The errors that `Add` and `decodeString` return, one constructor per
message. -/
inductive Error where
  /-- `invalid payload` -/
  | invalidPayload
  /-- `unknown packet type %d` -/
  | unknownPacketType (t : PacketType)
  /-- `illegal attachments` -/
  | illegalAttachments
  /-- `illegal namespace` -/
  | illegalNamespace
  /-- `illegal id` -/
  | illegalId
  /-- The `*strconv.NumError` of `ParseUint` with `ErrSyntax`. -/
  | numSyntax (s : List Nat)
  /-- The `*strconv.NumError` of `ParseUint` with `ErrRange`. -/
  | numRange (s : List Nat)
  /-- `got plaintext data when reconstructing a packet` -/
  | plaintextWhenReconstructing
  /-- `got binary data when not reconstructing a packet` -/
  | binaryWhenNotReconstructing
  /-- `decode error: %v` around the reconstructor's error -/
  | decodeError (e : Error)
  /-- `unknown type: %v` -/
  | unknownType
  /-- An error of the binary reconstructor. -/
  | reconstruction (msg : String)
  deriving DecidableEq, Repr

/-- The keys of the map `ReservedEvents`. -/
def ReservedEvents : List (List Nat) :=
  [ascii "connect", ascii "connect_error", ascii "disconnect", ascii "disconnecting"]

/-! ## The read buffer -/

/-- The read side of `types.StringBuffer`: the bytes already read (latest
first), the unread bytes, and whether the last operation was a successful read
(the only state in which `UnreadByte` is allowed). -/
structure StringBuffer where
  consumed : List Nat
  unread : List Nat
  lastRead : Bool

/-- The constructor `types.NewStringBufferString`. -/
def NewStringBufferString (s : List Nat) : StringBuffer :=
  { consumed := [], unread := s, lastRead := false }

/-- The method `Len`: the number of unread bytes. -/
def StringBuffer.Len (b : StringBuffer) : Nat := b.unread.length

/-- The method `ReadByte`: the next byte, or `none` for `io.EOF`. -/
def StringBuffer.ReadByte (b : StringBuffer) : Option Nat × StringBuffer :=
  match b.unread with
  | [] => (none, { b with lastRead := false })
  | c :: rest => (some c, { consumed := c :: b.consumed, unread := rest, lastRead := true })

/-- The method `UnreadByte`: `false` stands for its error, returned when the
last operation was not a successful read; otherwise the read position moves
back by one byte, if it is not at the start. -/
def StringBuffer.UnreadByte (b : StringBuffer) : Bool × StringBuffer :=
  if b.lastRead then
    match b.consumed with
    | [] => (true, { b with lastRead := false })
    | c :: before => (true, { consumed := before, unread := c :: b.unread, lastRead := false })
  else (false, b)

/-- Splits the unread bytes after the first `delim`: the bytes up to and
including it and the bytes after it, or `none` when there is no `delim`. -/
def splitAfter (delim : Nat) : List Nat → Option (List Nat × List Nat)
  | [] => none
  | c :: rest =>
    if c = delim then some ([c], rest)
    else match splitAfter delim rest with
      | none => none
      | some (line, tail) => some (c :: line, tail)

/-- The method `ReadString`: reads up to and including the first `delim`; when
there is none, reads everything and reports `io.EOF` (the `true` flag). -/
def StringBuffer.ReadString (b : StringBuffer) (delim : Nat) : List Nat × Bool × StringBuffer :=
  match splitAfter delim b.unread with
  | some (line, tail) =>
    (line, false, { consumed := line.reverse ++ b.consumed, unread := tail, lastRead := true })
  | none =>
    (b.unread, true, { consumed := b.unread.reverse ++ b.consumed, unread := [], lastRead := true })

/-! ## strconv.ParseUint -/

/-- The test `'0' <= c && c <= '9'`. -/
def isDigit (c : Nat) : Bool := decide (48 ≤ c ∧ c ≤ 57)

/-- The decimal value of a run of ASCII digits. -/
def decimalValue (ds : List Nat) : Nat := ds.foldl (fun n c => n * 10 + (c - 48)) 0

/-- The digit loop of `strconv.ParseUint(s, 10, 64)`, with `s0` the whole
input and `n` the value so far. -/
def ParseUintLoop (s0 : List Nat) : List Nat → Nat → Except Error Nat
  | [], n => .ok n
  | c :: rest, n =>
    if isDigit c then
      let d := c - 48
      -- cutoff = maxUint64/10 + 1: n*10 would overflow
      if n ≥ (2 ^ 64 - 1) / 10 + 1 then .error (.numRange s0)
      else
        let n := n * 10
        let n1 := (n + d) % 2 ^ 64
        if n1 < n then .error (.numRange s0)
        else ParseUintLoop s0 rest n1
    else .error (.numSyntax s0)

/-- The call `strconv.ParseUint(s, 10, 64)`. -/
def ParseUint (s : List Nat) : Except Error Nat :=
  if s = [] then .error (.numSyntax s) else ParseUintLoop s s 0

/-! ## The payload validator -/

/-- The function `isPayloadValid`. -/
def isPayloadValid (t : PacketType) (payload : Value) : Bool :=
  if t = Connect then
    match payload with
    | .object _ => true
    | _ => false
  else if t = Disconnect then
    match payload with
    | .nil => true
    | _ => false
  else if t = ConnectError then
    match payload with
    | .object _ => true
    | .string _ => true
    | _ => false
  else if t = Event ∨ t = BinaryEvent then
    match payload with
    | .array (first :: _) =>
      match first with
      | .string event => !decide (event ∈ ReservedEvents)
      | _ => false
    | _ => false
  else if t = Ack ∨ t = BinaryAck then
    match payload with
    | .array _ => true
    | _ => false
  else false

/-! ## decodeString -/

/-- The first step of `decodeString`, "look up type": one byte is read as the
packet type, which must be valid. -/
def lookUpType (str : StringBuffer) : Except Error (Packet × StringBuffer) :=
  match str.ReadByte with
  | (none, _) => .error .invalidPayload
  | (some msgType, str) =>
    let packet : Packet :=
      { Type_ := msgType, Nsp := [], Data := .nil, ID := none, Attachments := none }
    if !packet.Type_.Valid then .error (.unknownPacketType packet.Type_)
    else .ok (packet, str)

/-- The step "look up attachments if type binary" of `decodeString`. -/
def lookUpAttachments (packet : Packet) (str : StringBuffer) :
    Except Error (Packet × StringBuffer) :=
  if packet.Type_ = BinaryEvent ∨ packet.Type_ = BinaryAck then
    match str.ReadString 45 with -- '-'
    | (_, true, _) =>
      -- The scan is over and '-' was not found
      .error .illegalAttachments
    | (buf, false, str) =>
      let l := buf.length
      if l < 2 then .error .illegalAttachments
      else
        match ParseUint (buf.take (l - 1)) with
        | .error _ => .error .illegalAttachments
        | .ok attachments => .ok ({ packet with Attachments := some attachments }, str)
  else .ok (packet, str)

/-- The step "look up namespace (if any)" of `decodeString`.  The only error of
`ReadByte` and `ReadString` on this buffer is `io.EOF`. -/
def lookUpNamespace (packet : Packet) (str : StringBuffer) :
    Except Error (Packet × StringBuffer) :=
  match str.ReadByte with
  | (some nsp, str) =>
    if nsp = 47 then -- '/'
      match str.ReadString 44 with -- ','
      | (_nsp, true, str) => .ok ({ packet with Nsp := 47 :: _nsp }, str)
      | (_nsp, false, str) =>
        let _l := _nsp.length
        if _l < 1 then .error .illegalNamespace
        else .ok ({ packet with Nsp := 47 :: _nsp.take (_l - 1) }, str)
    else
      match str.UnreadByte with
      | (false, _) => .error .illegalNamespace
      | (true, str) => .ok ({ packet with Nsp := [47] }, str)
  | (none, str) => .ok ({ packet with Nsp := [47] }, str)

/-- The `for` loop of the step "look up id", by recursion on the unread bytes:
each round is one `ReadByte` (`consumed` is what was read before).  A digit is
appended to `id`; another byte is unread and ends the loop; so does `io.EOF`. -/
def lookUpIdLoop (id : List Nat) (consumed : List Nat) :
    List Nat → Except Error (List Nat × StringBuffer)
  | [] => .ok (id, { consumed := consumed, unread := [], lastRead := false })
  | b :: rest =>
    if isDigit b then lookUpIdLoop (id ++ [b]) (b :: consumed) rest
    else
      match StringBuffer.UnreadByte { consumed := b :: consumed, unread := rest, lastRead := true } with
      | (false, _) => .error .illegalId
      | (true, str) => .ok (id, str)

/-- The step "look up id" of `decodeString`. -/
def lookUpId (packet : Packet) (str : StringBuffer) : Except Error (Packet × StringBuffer) :=
  if str.Len > 0 then
    match lookUpIdLoop [] str.consumed str.unread with
    | .error err => .error err
    | .ok (id, str) =>
      if id.length > 0 then
        match ParseUint id with
        | .error err => .error err
        | .ok id => .ok ({ packet with ID := some id }, str)
      else .ok (packet, str)
  else .ok (packet, str)

/-- The step "look up json data" of `decodeString`; `jsonDecode` stands for
`json.NewDecoder(str).Decode(&payload)`, `none` being its error. -/
def lookUpData (jsonDecode : List Nat → Option Value) (packet : Packet) (str : StringBuffer) :
    Except Error Packet :=
  if str.Len > 0 then
    match jsonDecode str.unread with
    | none => .error .invalidPayload
    | some payload =>
      if isPayloadValid packet.Type_ payload then .ok { packet with Data := payload }
      else .error .invalidPayload
  else .ok packet

/-- The method `decoder.decodeString`. -/
def decodeString (jsonDecode : List Nat → Option Value) (str : StringBuffer) :
    Except Error Packet := do
  let (packet, str) ← lookUpType str
  let (packet, str) ← lookUpAttachments packet str
  let (packet, str) ← lookUpNamespace packet str
  let (packet, str) ← lookUpId packet str
  lookUpData jsonDecode packet str

/-- The steps of `decodeString` from "look up id" on. -/
def decodeFromId (jsonDecode : List Nat → Option Value) (packet : Packet) (str : StringBuffer) :
    Except Error Packet := do
  let (packet, str) ← lookUpId packet str
  lookUpData jsonDecode packet str

/-- The steps of `decodeString` from "look up namespace" on. -/
def decodeFromNamespace (jsonDecode : List Nat → Option Value) (packet : Packet)
    (str : StringBuffer) : Except Error Packet := do
  let (packet, str) ← lookUpNamespace packet str
  let (packet, str) ← lookUpId packet str
  lookUpData jsonDecode packet str

/-! ## The parts of a text frame -/

/-- The attachment-count prefix `pre` of a frame of type `t`: nothing for the
five non-binary types; for the two binary types a `count` without `'-'`,
followed by `'-'`. -/
def countPrefix (t : PacketType) (pre : List Nat) : Prop :=
  (t ≠ BinaryEvent ∧ t ≠ BinaryAck ∧ pre = []) ∨
  ((t = BinaryEvent ∨ t = BinaryAck) ∧ ∃ count, pre = count ++ [45] ∧ 45 ∉ count)

/-- A run of digits `ds` followed by `rest` is maximal when `rest` is empty or
starts with a byte that is not a digit. -/
def maximalRun (ds rest : List Nat) : Prop :=
  (∀ c ∈ ds, isDigit c = true) ∧ (rest = [] ∨ ∃ c t, rest = c :: t ∧ isDigit c = false)

/-- The namespace part `nsp` of a frame, in front of the text `after`: nothing,
when `after` is empty or starts with a byte other than `'/'`; or `'/'`, a run
`ns` without `','`, and `','`; or `'/'` and a run `ns` without `','` up to the
end of the frame. -/
def namespacePart (nsp after : List Nat) : Prop :=
  (nsp = [] ∧ (after = [] ∨ ∃ c t, after = c :: t ∧ c ≠ 47)) ∨
  (∃ ns, 44 ∉ ns ∧ nsp = 47 :: (ns ++ [44])) ∨
  (∃ ns, 44 ∉ ns ∧ nsp = 47 :: ns ∧ after = [])

/-! ## A concrete JSON decoder -/

/-- The bytes after the leading JSON white space of the input. -/
def skipSpace : List Nat → List Nat
  | [] => []
  | c :: rest => if c = 32 ∨ c = 9 ∨ c = 10 ∨ c = 13 then skipSpace rest else c :: rest

/-- The value of a hexadecimal digit. -/
def hexVal (c : Nat) : Option Nat :=
  if 48 ≤ c ∧ c ≤ 57 then some (c - 48)
  else if 97 ≤ c ∧ c ≤ 102 then some (c - 87)
  else if 65 ≤ c ∧ c ≤ 70 then some (c - 55)
  else none

/-- The value of four hexadecimal digits. -/
def hex4 (a b c d : Nat) : Option Nat :=
  match hexVal a, hexVal b, hexVal c, hexVal d with
  | some a, some b, some c, some d => some (a * 4096 + b * 256 + c * 16 + d)
  | _, _, _, _ => none

/-- The UTF-8 encoding of a code point. -/
def utf8Encode (r : Nat) : List Nat :=
  if r < 128 then [r]
  else if r < 2048 then [192 + r / 64, 128 + r % 64]
  else if r < 65536 then [224 + r / 4096, 128 + r / 64 % 64, 128 + r % 64]
  else [240 + r / 262144, 128 + r / 4096 % 64, 128 + r / 64 % 64, 128 + r % 64]

/-- A continuation byte of UTF-8, `0x80`..`0xBF`. -/
def isCont (b : Nat) : Bool := decide (128 ≤ b ∧ b ≤ 191)

/-- The number of bytes of the UTF-8 encoding at the head of the input, as
`utf8.DecodeRune` finds it: 0 when the input is empty or starts with bytes
that are not valid UTF-8 (a stray or missing continuation byte, an overlong
form, a surrogate, a code point above U+10FFFF). -/
def utf8Len : List Nat → Nat
  | [] => 0
  | b0 :: rest =>
    if b0 < 128 then 1
    else
      match rest with
      | [] => 0
      | b1 :: rest =>
        if 194 ≤ b0 ∧ b0 ≤ 223 then (if isCont b1 then 2 else 0)
        else
          match rest with
          | [] => 0
          | b2 :: rest =>
            if 224 ≤ b0 ∧ b0 ≤ 239 then
              (if ((b0 = 224 ∧ 160 ≤ b1 ∧ b1 ≤ 191) ∨
                   (b0 = 237 ∧ 128 ≤ b1 ∧ b1 ≤ 159) ∨
                   (b0 ≠ 224 ∧ b0 ≠ 237 ∧ 128 ≤ b1 ∧ b1 ≤ 191)) ∧ isCont b2 = true
               then 3 else 0)
            else
              match rest with
              | [] => 0
              | b3 :: _ =>
                if 240 ≤ b0 ∧ b0 ≤ 244 ∧
                    ((b0 = 240 ∧ 144 ≤ b1 ∧ b1 ≤ 191) ∨
                     (b0 = 244 ∧ 128 ≤ b1 ∧ b1 ≤ 143) ∨
                     (b0 ≠ 240 ∧ b0 ≠ 244 ∧ 128 ≤ b1 ∧ b1 ≤ 191)) ∧
                    isCont b2 = true ∧ isCont b3 = true
                then 4 else 0

/-- The rest of a JSON string literal after its opening quote: the decoded
bytes and the input after the closing quote.  Escapes are resolved; a lone
surrogate escape and every byte that is not part of valid UTF-8 become U+FFFD,
as in `encoding/json`. -/
def parseString : Nat → List Nat → List Nat → Option (List Nat × List Nat)
  | 0, _, _ => none
  | _ + 1, _, [] => none
  | fuel + 1, acc, c :: rest =>
    if c = 34 then some (acc, rest) -- '"'
    else if c < 32 then none
    else if c = 92 then -- '\\'
      match rest with
      | [] => none
      | e :: rest =>
        if e = 34 ∨ e = 92 ∨ e = 47 then parseString fuel (acc ++ [e]) rest
        else if e = 98 then parseString fuel (acc ++ [8]) rest
        else if e = 102 then parseString fuel (acc ++ [12]) rest
        else if e = 110 then parseString fuel (acc ++ [10]) rest
        else if e = 114 then parseString fuel (acc ++ [13]) rest
        else if e = 116 then parseString fuel (acc ++ [9]) rest
        else if e = 117 then -- 'u'
          match rest with
          | h1 :: h2 :: h3 :: h4 :: rest =>
            match hex4 h1 h2 h3 h4 with
            | none => none
            | some r =>
              if 55296 ≤ r ∧ r < 57344 then
                -- a surrogate: valid only as a high one followed by a low one
                match rest with
                | 92 :: 117 :: l1 :: l2 :: l3 :: l4 :: rest2 =>
                  match hex4 l1 l2 l3 l4 with
                  | some r2 =>
                    if r < 56320 ∧ 56320 ≤ r2 ∧ r2 < 57344 then
                      parseString fuel
                        (acc ++ utf8Encode (65536 + (r - 55296) * 1024 + (r2 - 56320))) rest2
                    else parseString fuel (acc ++ utf8Encode 65533) rest
                  | none => parseString fuel (acc ++ utf8Encode 65533) rest
                | _ => parseString fuel (acc ++ utf8Encode 65533) rest
              else parseString fuel (acc ++ utf8Encode r) rest
          | _ => none
        else none
    else if c < 128 then parseString fuel (acc ++ [c]) rest
    else if utf8Len (c :: rest) = 0 then
      -- not valid UTF-8: the byte is replaced by U+FFFD
      parseString fuel (acc ++ utf8Encode 65533) rest
    else
      parseString fuel (acc ++ (c :: rest).take (utf8Len (c :: rest)))
        ((c :: rest).drop (utf8Len (c :: rest)))

/-- The maximal run of decimal digits at the head of the input, and the rest. -/
def spanDigits : List Nat → List Nat × List Nat
  | [] => ([], [])
  | c :: rest =>
    if 48 ≤ c ∧ c ≤ 57 then ((spanDigits rest).1.cons c, (spanDigits rest).2) else ([], c :: rest)

/-- The integer part of a JSON number, `0` or a run of digits that does not
start with `0`, and the rest. -/
def numberInt : List Nat → Option (List Nat × List Nat)
  | [] => none
  | c :: rest =>
    if c = 48 then some ([48], rest)
    else if 49 ≤ c ∧ c ≤ 57 then some (c :: (spanDigits rest).1, (spanDigits rest).2)
    else none

/-- The fraction of a JSON number, if any: `.` and a non-empty run of digits. -/
def numberFrac : List Nat → Option (List Nat × List Nat)
  | [] => some ([], [])
  | c :: rest =>
    if c = 46 then
      if (spanDigits rest).1 = [] then none
      else some (46 :: (spanDigits rest).1, (spanDigits rest).2)
    else some ([], c :: rest)

/-- The exponent of a JSON number, if any: `e` or `E`, an optional sign and a
non-empty run of digits. -/
def numberExp : List Nat → Option (List Nat × List Nat)
  | [] => some ([], [])
  | e :: rest =>
    if e = 101 ∨ e = 69 then
      match rest with
      | [] => none
      | g :: rest2 =>
        if g = 43 ∨ g = 45 then
          if (spanDigits rest2).1 = [] then none
          else some (e :: g :: (spanDigits rest2).1, (spanDigits rest2).2)
        else
          if (spanDigits (g :: rest2)).1 = [] then none
          else some (e :: (spanDigits (g :: rest2)).1, (spanDigits (g :: rest2)).2)
    else some ([], e :: rest)

/-- A JSON number literal at the head of the input, without its sign. -/
def numberUnsigned (s : List Nat) : Option (List Nat × List Nat) :=
  match numberInt s with
  | none => none
  | some (ip, s1) =>
    match numberFrac s1 with
    | none => none
    | some (fp, s2) =>
      match numberExp s2 with
      | none => none
      | some (ep, s3) => some (ip ++ fp ++ ep, s3)

/-- A JSON number literal at the head of the input: its bytes and the rest. -/
def parseNumber : List Nat → Option (List Nat × List Nat)
  | [] => none
  | c :: rest =>
    if c = 45 then
      match numberUnsigned rest with
      | none => none
      | some (lit, s) => some (45 :: lit, s)
    else numberUnsigned (c :: rest)

/-- The least value that does not round to a finite float64,
`2 ^ 1024 - 2 ^ 970`, half a unit in the last place above the largest one. -/
def float64Limit : Nat :=
  179769313486231580793728971405303415079934132710037826936173778980444968292764750946649017977587207096330286416692887910946555547851940402630657488671505820681908902000708383676273854845817711531764475730270069855571366959622842914819860834936475292719074168444365510704342711559699508093042880177904174497792

/-- Whether `strconv.ParseFloat(lit, 64)` returns a value without a range
error, for a JSON number literal: the digits of the integer part and of the
fraction, leading zeros apart, make the mantissa `m`; the exponent is read
digit by digit and no longer changes once it has reached 10000; the value
`m * 10 ^ (exponent - number of fraction digits)` must round to a finite
float64, that is, be below `float64Limit`. -/
def numberInRange (lit : List Nat) : Bool :=
  let s := match lit with
    | 45 :: r => r
    | _ => lit
  let ip := (spanDigits s).1
  let s1 := (spanDigits s).2
  let fp := match s1 with
    | 46 :: r => (spanDigits r).1
    | _ => []
  let s2 := match s1 with
    | 46 :: r => (spanDigits r).2
    | _ => s1
  let eneg := match s2 with
    | _ :: 45 :: _ => true
    | _ => false
  let ed := match s2 with
    | _ :: 43 :: r => (spanDigits r).1
    | _ :: 45 :: r => (spanDigits r).1
    | _ :: r => (spanDigits r).1
    | [] => []
  let m := decimalValue (ip ++ fp)
  let e := ed.foldl (fun e c => if e < 10000 then e * 10 + (c - 48) else e) 0
  if m = 0 then true
  else if eneg then decide (m < float64Limit * 10 ^ (e + fp.length))
  else if fp.length ≤ e then decide (m * 10 ^ (e - fp.length) < float64Limit)
  else decide (m < float64Limit * 10 ^ (fp.length - e))

/-- Sets the entry `k` of an object, as an assignment to a Go map does. -/
def setField (k : List Nat) (v : Value) : List (List Nat × Value) → List (List Nat × Value)
  | [] => [(k, v)]
  | (k1, v1) :: rest => if k1 = k then (k, v) :: rest else (k1, v1) :: setField k v rest

mutual
/-- One JSON value at the head of the input (after white space), inside `depth`
arrays and objects, and the input after it. -/
def parseValue : Nat → Nat → List Nat → Option (Value × List Nat)
  | 0, _, _ => none
  | fuel + 1, depth, s =>
    match skipSpace s with
    | [] => none
    | c :: rest =>
      if c = 110 then -- null
        match rest with
        | 117 :: 108 :: 108 :: rest => some (.nil, rest)
        | _ => none
      else if c = 116 then -- true
        match rest with
        | 114 :: 117 :: 101 :: rest => some (.bool true, rest)
        | _ => none
      else if c = 102 then -- false
        match rest with
        | 97 :: 108 :: 115 :: 101 :: rest => some (.bool false, rest)
        | _ => none
      else if c = 34 then
        match parseString (rest.length + 1) [] rest with
        | some (str, rest) => some (.string str, rest)
        | none => none
      else if c = 91 then -- '['
        if 10000 ≤ depth then none -- exceeded max depth
        else
          match skipSpace rest with
          | 93 :: rest => some (.array [], rest)
          | _ =>
            match parseElems fuel (depth + 1) [] rest with
            | some (elems, rest) => some (.array elems, rest)
            | none => none
      else if c = 123 then -- an object
        if 10000 ≤ depth then none -- exceeded max depth
        else
          match skipSpace rest with
          | 125 :: rest => some (.object [], rest)
          | _ =>
            match parseMembers fuel (depth + 1) [] rest with
            | some (fields, rest) => some (.object fields, rest)
            | none => none
      else
        match parseNumber (c :: rest) with
        | some (lit, rest) => if numberInRange lit then some (.number lit, rest) else none
        | none => none
/-- The elements of a non-empty JSON array, up to its closing bracket. -/
def parseElems : Nat → Nat → List Value → List Nat → Option (List Value × List Nat)
  | 0, _, _, _ => none
  | fuel + 1, depth, acc, s =>
    match parseValue fuel depth s with
    | none => none
    | some (v, rest) =>
      match skipSpace rest with
      | 44 :: rest => parseElems fuel depth (acc ++ [v]) rest
      | 93 :: rest => some (acc ++ [v], rest)
      | _ => none
/-- The members of a non-empty JSON object, up to its closing brace. -/
def parseMembers : Nat → Nat → List (List Nat × Value) → List Nat →
    Option (List (List Nat × Value) × List Nat)
  | 0, _, _, _ => none
  | fuel + 1, depth, acc, s =>
    match skipSpace s with
    | 34 :: rest =>
      match parseString (rest.length + 1) [] rest with
      | none => none
      | some (key, rest) =>
        match skipSpace rest with
        | 58 :: rest =>
          match parseValue fuel depth rest with
          | none => none
          | some (v, rest) =>
            match skipSpace rest with
            | 44 :: rest => parseMembers fuel depth (setField key v acc) rest
            | 125 :: rest => some (setField key v acc, rest)
            | _ => none
        | _ => none
    | _ => none
end

/-- The first JSON value of the text and the text after it, as the scanner of
`json.Decoder` delimits it: white space before the value is skipped and what
follows the value is not looked at. -/
def readValue (s : List Nat) : Option (Value × List Nat) :=
  parseValue (s.length + 1) 0 s

/-- A model of `json.NewDecoder(str).Decode(&payload)` with `payload` an `any`:
the first JSON value of the input is decoded and what follows it is left
unread.  JSON `null` gives Go's nil; a number keeps its literal and is
refused when `ParseFloat` reports it out of the range of float64; bytes that
are not valid UTF-8 in a string become U+FFFD; arrays and objects nested more
than 10000 deep are refused. -/
def goJsonDecode (s : List Nat) : Option Value :=
  match readValue s with
  | some (v, _) => some v
  | none => none

/-- The operations of the binary reconstructor that the decoder calls, over a
reconstructor state `R`: `NewBinaryReconstructor(packet)`,
`takeBinaryData(binData)`, which changes the reconstructor and returns an error,
a completed packet, or neither, and `finishedReconstruction()`. -/
structure ReconstructorOps (R : Type) where
  NewBinaryReconstructor : Packet → R
  takeBinaryData : R → List Nat → R × Except Error (Option Packet)
  finishedReconstruction : R → R

/-- The struct `decoder`: its reconstruction slot, `none` being the nil
pointer. -/
structure decoder (R : Type) where
  reconstructor : Option R

/-- The constructor `NewDecoder`. -/
def NewDecoder {R : Type} : decoder R := { reconstructor := none }

/-- What `Add` accepts: a text frame given as a `string`, a `*strings.Reader`
or a `*types.StringBuffer` (each with its bytes), a binary frame (a value for
which `IsBinary` holds, with its bytes), or any other value. -/
inductive Frame where
  | string (tdata : List Nat)
  | reader (tdata : List Nat)
  | stringBuffer (tdata : List Nat)
  | binary (data : List Nat)
  | other

/-- The bytes of a text frame. -/
def Frame.text? : Frame → Option (List Nat)
  | .string s => some s
  | .reader s => some s
  | .stringBuffer s => some s
  | _ => none

/-- The outcome of a call on the decoder: the returned error (`none` for nil),
the decoder afterwards, and the packets emitted as "decoded" during the call,
in order. -/
structure Outcome (R : Type) where
  err : Option Error
  after : decoder R
  emitted : List Packet

/-- The method `decoder.decodeAsString`. -/
def decodeAsString {R : Type} (jsonDecode : List Nat → Option Value) (ops : ReconstructorOps R)
    (d : decoder R) (str : StringBuffer) : Outcome R :=
  match decodeString jsonDecode str with
  | .error err => { err := some err, after := d, emitted := [] }
  | .ok packet =>
    if packet.Type_ = BinaryEvent ∨ packet.Type_ = BinaryAck then
      -- binary packet's json
      let d : decoder R := { d with reconstructor := some (ops.NewBinaryReconstructor packet) }
      -- no attachments, labeled binary but no binary data to follow
      if packet.Attachments = some 0 then { err := none, after := d, emitted := [packet] }
      else { err := none, after := d, emitted := [] }
    else
      -- non-binary full packet
      { err := none, after := d, emitted := [packet] }

/-- The method `decoder.Add`. -/
def Add {R : Type} (jsonDecode : List Nat → Option Value) (ops : ReconstructorOps R)
    (d : decoder R) (data : Frame) : Outcome R :=
  match data with
  | .string tdata =>
    if d.reconstructor.isSome then
      { err := some .plaintextWhenReconstructing, after := d, emitted := [] }
    else decodeAsString jsonDecode ops d (NewStringBufferString tdata)
  | .reader tdata =>
    if d.reconstructor.isSome then
      { err := some .plaintextWhenReconstructing, after := d, emitted := [] }
    else decodeAsString jsonDecode ops d (NewStringBufferString tdata)
  | .stringBuffer tdata =>
    if d.reconstructor.isSome then
      { err := some .plaintextWhenReconstructing, after := d, emitted := [] }
    else decodeAsString jsonDecode ops d (NewStringBufferString tdata)
  | .binary rdata =>
    -- raw binary data
    match d.reconstructor with
    | none => { err := some .binaryWhenNotReconstructing, after := d, emitted := [] }
    | some r =>
      match ops.takeBinaryData r rdata with
      | (r, .error err) =>
        { err := some (.decodeError err), after := { d with reconstructor := some r },
          emitted := [] }
      | (_, .ok (some packet)) =>
        -- received final buffer
        { err := none, after := { d with reconstructor := none }, emitted := [packet] }
      | (r, .ok none) =>
        { err := none, after := { d with reconstructor := some r }, emitted := [] }
  | .other => { err := some .unknownType, after := d, emitted := [] }

/-- The method `decoder.Destroy`, which returns nothing and has no `Emit`. -/
def Destroy {R : Type} (ops : ReconstructorOps R) (d : decoder R) : Outcome R :=
  match d.reconstructor with
  | some r =>
    { err := none, after := { d with reconstructor := some (ops.finishedReconstruction r) },
      emitted := [] }
  | none => { err := none, after := d, emitted := [] }

/-- The decoder is Idle: no reconstruction is pending (`d.reconstructor == nil`). -/
def decoder.Idle {R : Type} (d : decoder R) : Prop := d.reconstructor = none

/-! ## The binary reconstructor -/

/-- Modelled from the spec: the reconstruction state of the decoder (`binary.go`
is the missing file), "the pending Packet (Data still containing Placeholders),
the ordered list of binary frames received so far"; `remaining` is
`Attachments - len(received)`. -/
structure binaryreconstructor where
  pending : Option Packet
  received : List (List Nat)

/-- Modelled from the spec: the index of a Placeholder,
`{ isPlaceholder: true, index: n }`, among the entries of an object; `none`
when the object is not a Placeholder, `some none` when its index is not a
natural number.  The missing part is the Placeholder type of `binary.go`. -/
def placeholderIndex (fields : List (List Nat × Value)) : Option (Option Nat) :=
  match fields.lookup (ascii "isPlaceholder"), fields.lookup (ascii "index") with
  | some (.bool true), some (.number lit) =>
    match ParseUint lit with
    | .ok n => some (some n)
    | .error _ => some none
  | _, _ => none

mutual
/-- Modelled from the spec: the reconstruction walk of §4.5 (the missing
`ReconstructPacket` of `binary.go`), a depth-first traversal in which "each
Placeholder is replaced by `received[placeholder.index]`" and "an index outside
`[0, len(received))` is a fatal ReconstructionError". -/
def reconstructValue (received : List (List Nat)) : Value → Except Error Value
  | .array elems =>
    match reconstructElems received elems with
    | .ok elems => .ok (.array elems)
    | .error e => .error e
  | .object fields =>
    match placeholderIndex fields with
    | some (some n) =>
      match received.get? n with
      | some buf => .ok (.binary buf)
      | none => .error (.reconstruction "illegal attachments")
    | some none => .error (.reconstruction "illegal attachments")
    | none =>
      match reconstructFields received fields with
      | .ok fields => .ok (.object fields)
      | .error e => .error e
  | v => .ok v
/-- Modelled from the spec: the walk of §4.5 over the elements of an array, in
order (part of the missing `ReconstructPacket`). -/
def reconstructElems (received : List (List Nat)) : List Value → Except Error (List Value)
  | [] => .ok []
  | v :: rest =>
    match reconstructValue received v, reconstructElems received rest with
    | .ok v, .ok rest => .ok (v :: rest)
    | .error e, _ => .error e
    | _, .error e => .error e
/-- Modelled from the spec: the walk of §4.5 over the entries of an object
(part of the missing `ReconstructPacket`). -/
def reconstructFields (received : List (List Nat)) :
    List (List Nat × Value) → Except Error (List (List Nat × Value))
  | [] => .ok []
  | (k, v) :: rest =>
    match reconstructValue received v, reconstructFields received rest with
    | .ok v, .ok rest => .ok ((k, v) :: rest)
    | .error e, _ => .error e
    | _, .error e => .error e
end

/-- Modelled from the spec: the missing `NewBinaryReconstructor` of `binary.go`,
the state "created when a binary-labeled text frame ... is parsed", with the
parsed packet and nothing received. -/
def NewBinaryReconstructor (packet : Packet) : binaryreconstructor :=
  { pending := some packet, received := [] }

/-- Modelled from the spec: the missing `takeBinaryData` of `binary.go`, "append
to received list, decrement `remaining`.  If `remaining` > 0, stay ...  If
`remaining` == 0, run the reconstruction walk"; on success the completed packet
is returned, on failure the error. -/
def takeBinaryData (b : binaryreconstructor) (binData : List Nat) :
    binaryreconstructor × Except Error (Option Packet) :=
  let b : binaryreconstructor := { b with received := b.received ++ [binData] }
  match b.pending with
  | none => (b, .ok none)
  | some packet =>
    if (packet.Attachments.getD 0 : Int) - b.received.length = 0 then
      match reconstructValue b.received packet.Data with
      | .ok data =>
        ({ pending := none, received := [] }, .ok (some { packet with Data := data }))
      | .error e => (b, .error e)
    else (b, .ok none)

/-- Modelled from the spec: the missing `finishedReconstruction` of
`binary.go`, which discards the pending state. -/
def finishedReconstruction (_b : binaryreconstructor) : binaryreconstructor :=
  { pending := none, received := [] }

/-- Modelled from the spec: the three operations of the missing `binary.go`
above, as the reconstructor that the decoder calls. -/
def specOps : ReconstructorOps binaryreconstructor :=
  { NewBinaryReconstructor := NewBinaryReconstructor
    takeBinaryData := takeBinaryData
    finishedReconstruction := finishedReconstruction }

mutual
/-- Modelled from the spec: the number of Placeholder leaves,
`{ isPlaceholder: true, index: n }`, in a payload (the Placeholder type belongs
to the missing `binary.go`). -/
def countPlaceholders : Value → Nat
  | .array elems => countPlaceholdersElems elems
  | .object fields =>
    match placeholderIndex fields with
    | some _ => 1
    | none => countPlaceholdersFields fields
  | _ => 0
/-- Modelled from the spec: the number of Placeholder leaves in the elements of
an array (see `countPlaceholders`). -/
def countPlaceholdersElems : List Value → Nat
  | [] => 0
  | v :: rest => countPlaceholders v + countPlaceholdersElems rest
/-- Modelled from the spec: the number of Placeholder leaves in the entries of
an object (see `countPlaceholders`). -/
def countPlaceholdersFields : List (List Nat × Value) → Nat
  | [] => 0
  | (_, v) :: rest => countPlaceholders v + countPlaceholdersFields rest
end

/-! ## The encoder -/

/-- The digits of `n` in front of `acc`, most significant first, at most `fuel`
of them. -/
def decimalDigitsAux : Nat → Nat → List Nat → List Nat
  | 0, _, acc => acc
  | fuel + 1, n, acc =>
    if n < 10 then (n + 48) :: acc
    else decimalDigitsAux fuel (n / 10) ((n % 10 + 48) :: acc)

/-- The call `strconv.FormatUint(n, 10)` on a `uint64`: its decimal digits, at
most twenty. -/
def decimalDigits (n : Nat) : List Nat := decimalDigitsAux 20 n []

/-- Modelled from the spec: the text frame that the encoder (the missing
`encoder.go`) writes for a packet,
`<type-digit>[<attachmentCount>'-'][<namespace>','][<ackId>][<jsonPayload>]`:
the count only for the two binary types, the namespace part omitted when the
namespace is absent or `"/"`, the id and the payload omitted when absent.
`jsonEncode` stands for `json.Marshal`. -/
def encodeAsString (jsonEncode : Value → List Nat) (packet : Packet) : List Nat :=
  [packet.Type_] ++
  (if packet.Type_ = BinaryEvent ∨ packet.Type_ = BinaryAck then
    decimalDigits (packet.Attachments.getD 0) ++ [45]
   else []) ++
  (if packet.Nsp = [] ∨ packet.Nsp = [47] then [] else packet.Nsp ++ [44]) ++
  (match packet.ID with
   | some id => decimalDigits id
   | none => []) ++
  (match packet.Data with
   | .nil => []
   | data => jsonEncode data)

/-- The lower-case hexadecimal digit of a value below 16. -/
def hexDigit (n : Nat) : Nat := if n < 10 then n + 48 else n + 87

/-- What `json.Marshal` writes for the first character of a string, and the
bytes of the string after that character. -/
def encodeChar : List Nat → List Nat × List Nat
  | [] => ([], [])
  | c :: rest =>
    if c < 128 then
      if c = 34 ∨ c = 92 then ([92, c], rest)
      else if c = 8 then ([92, 98], rest)
      else if c = 12 then ([92, 102], rest)
      else if c = 10 then ([92, 110], rest)
      else if c = 13 then ([92, 114], rest)
      else if c = 9 then ([92, 116], rest)
      else if c < 32 ∨ c = 60 ∨ c = 62 ∨ c = 38 then
        ([92, 117, 48, 48, hexDigit (c / 16), hexDigit (c % 16)], rest)
      else ([c], rest)
    else if utf8Len (c :: rest) = 0 then
      -- not valid UTF-8: written as the escape of U+FFFD
      ([92, 117, 102, 102, 102, 100], rest)
    else if (c :: rest).take (utf8Len (c :: rest)) = [226, 128, 168] then
      ([92, 117, 50, 48, 50, 56], (c :: rest).drop (utf8Len (c :: rest)))
    else if (c :: rest).take (utf8Len (c :: rest)) = [226, 128, 169] then
      ([92, 117, 50, 48, 50, 57], (c :: rest).drop (utf8Len (c :: rest)))
    else ((c :: rest).take (utf8Len (c :: rest)), (c :: rest).drop (utf8Len (c :: rest)))

/-- The body of the JSON string literal that `json.Marshal` writes,
character by character (at most `fuel` characters). -/
def encodeStringBody : Nat → List Nat → List Nat
  | 0, _ => []
  | _ + 1, [] => []
  | fuel + 1, c :: rest =>
    (encodeChar (c :: rest)).1 ++ encodeStringBody fuel (encodeChar (c :: rest)).2

/-- The JSON string literal that `json.Marshal` writes for a string. -/
def encodeString (s : List Nat) : List Nat := 34 :: (encodeStringBody s.length s ++ [34])

/-- The order of Go strings: byte by byte. -/
def keyLt : List Nat → List Nat → Bool
  | [], [] => false
  | [], _ :: _ => true
  | _ :: _, [] => false
  | a :: as, b :: bs => if a < b then true else if a = b then keyLt as bs else false

/-- Puts an entry in its place in a list of entries in key order. -/
def insertByKey {α : Type} (kv : List Nat × α) : List (List Nat × α) → List (List Nat × α)
  | [] => [kv]
  | x :: rest => if keyLt kv.1 x.1 then kv :: x :: rest else x :: insertByKey kv rest

/-- The entries in key order, the order in which `json.Marshal` writes a map. -/
def sortByKey {α : Type} : List (List Nat × α) → List (List Nat × α)
  | [] => []
  | x :: rest => insertByKey x (sortByKey rest)

/-- The texts separated by commas. -/
def joinComma : List (List Nat) → List Nat
  | [] => []
  | x :: rest =>
    x ++
      (match rest with
       | [] => []
       | _ :: _ => 44 :: joinComma rest)

mutual
/-- A model of `json.Marshal` on a payload without binary leaves: compact JSON,
a number written as its literal, the entries of an object in key order (a
binary leaf, which such a payload does not hold, is written `null`). -/
def goJsonEncode : Value → List Nat
  | .nil => [110, 117, 108, 108]
  | .bool true => [116, 114, 117, 101]
  | .bool false => [102, 97, 108, 115, 101]
  | .number lit => lit
  | .string str => encodeString str
  | .array elems => 91 :: (joinComma (goJsonEncodeElems elems) ++ [93])
  | .object fields =>
    123 :: (joinComma ((sortByKey (goJsonEncodeFields fields)).map
      (fun kv => encodeString kv.1 ++ 58 :: kv.2)) ++ [125])
  | .binary _ => [110, 117, 108, 108]
/-- The texts of the elements of an array. -/
def goJsonEncodeElems : List Value → List (List Nat)
  | [] => []
  | v :: rest => goJsonEncode v :: goJsonEncodeElems rest
/-- The keys of an object, each with the text of its value. -/
def goJsonEncodeFields : List (List Nat × Value) → List (List Nat × List Nat)
  | [] => []
  | (k, v) :: rest => (k, goJsonEncode v) :: goJsonEncodeFields rest
end

/-- Valid UTF-8, checked character by character (at most `fuel` characters). -/
def validUtf8Aux : Nat → List Nat → Bool
  | _, [] => true
  | 0, _ :: _ => false
  | fuel + 1, c :: rest =>
    decide (utf8Len (c :: rest) ≠ 0) &&
      validUtf8Aux fuel ((c :: rest).drop (utf8Len (c :: rest)))

/-- The string is valid UTF-8. -/
def validUtf8 (s : List Nat) : Bool := validUtf8Aux s.length s

/-- Each key is before all the keys after it: the entries are in strictly
increasing key order. -/
def keysIncreasing {α : Type} : List (List Nat × α) → Bool
  | [] => true
  | x :: rest => rest.all (fun y => keyLt x.1 y.1) && keysIncreasing rest

mutual
/-- A payload that stands for JSON data, inside `depth` arrays and objects: no
binary leaf; every string and key valid UTF-8; every number a JSON number
literal that `ParseFloat` accepts; the entries of every object in strictly
increasing key order; at most 10000 levels of arrays and objects. -/
def jsonClean : Nat → Value → Bool
  | _, .nil => true
  | _, .bool _ => true
  | _, .number lit => decide (parseNumber lit = some (lit, [])) && numberInRange lit
  | _, .string str => validUtf8 str
  | depth, .array elems => decide (depth < 10000) && jsonCleanElems (depth + 1) elems
  | depth, .object fields =>
    decide (depth < 10000) && keysIncreasing fields && jsonCleanFields (depth + 1) fields
  | _, .binary _ => false
/-- The elements of an array are `jsonClean`. -/
def jsonCleanElems : Nat → List Value → Bool
  | _, [] => true
  | depth, v :: rest => jsonClean depth v && jsonCleanElems depth rest
/-- The keys of an object are valid UTF-8 and its values `jsonClean`. -/
def jsonCleanFields : Nat → List (List Nat × Value) → Bool
  | _, [] => true
  | depth, (k, v) :: rest => validUtf8 k && jsonClean depth v && jsonCleanFields depth rest
end

/-- The text after a number literal does not go on with the literal: it is
empty or starts with a byte that is not a digit, `.`, `e` or `E`. -/
def numberEnds (t : List Nat) : Prop :=
  t = [] ∨ ∃ c r, t = c :: r ∧ ¬ (48 ≤ c ∧ c ≤ 57) ∧ c ≠ 46 ∧ c ≠ 101 ∧ c ≠ 69

/-- The first byte of the text of a JSON value. -/
def valueStart (c : Nat) : Prop :=
  c = 110 ∨ c = 116 ∨ c = 102 ∨ c = 34 ∨ c = 91 ∨ c = 123 ∨ c = 45 ∨ (48 ≤ c ∧ c ≤ 57)

/-- The text after a value inside an array or an object, or at the end of the
input: empty, or starting with `,`, `]` or the closing brace. -/
def valueEnds (t : List Nat) : Prop :=
  t = [] ∨ ∃ r, t = 44 :: r ∨ t = 93 :: r ∨ t = 125 :: r

/-- The value `v` inside `n` arrays of one element each. -/
def nestArrays : Nat → Value → Value
  | 0, v => v
  | n + 1, v => .array [nestArrays n v]

/-! ## Lemmas: ParseUint -/

theorem foldl_decimal_ge (rest : List Nat) (n : Nat) :
    n ≤ rest.foldl (fun n c => n * 10 + (c - 48)) n := by
  induction rest generalizing n with
  | nil => simp
  | cons c rest ih =>
    simp only [List.foldl_cons]
    exact le_trans (by omega) (ih (n * 10 + (c - 48)))

theorem ParseUintLoop_digits (s0 rest : List Nat) (n : Nat) (hn : n < 2 ^ 64)
    (hd : ∀ c ∈ rest, isDigit c = true) :
    ParseUintLoop s0 rest n =
      if rest.foldl (fun n c => n * 10 + (c - 48)) n < 2 ^ 64
      then .ok (rest.foldl (fun n c => n * 10 + (c - 48)) n) else .error (.numRange s0) := by
  induction rest generalizing n with
  | nil =>
    norm_num at hn
    simp [ParseUintLoop, hn]
  | cons c rest ih =>
    have hc : isDigit c = true := hd c (List.mem_cons_self _ _)
    have hrest : ∀ c ∈ rest, isDigit c = true := fun x hx => hd x (List.mem_cons_of_mem _ hx)
    have hc2 : 48 ≤ c ∧ c ≤ 57 := by simpa [isDigit] using hc
    have hge := foldl_decimal_ge rest (n * 10 + (c - 48))
    simp only [ParseUintLoop, hc, if_true, List.foldl_cons]
    norm_num at hn hge ⊢
    by_cases h1 : 1844674407370955162 ≤ n
    · rw [if_pos h1, if_neg (by omega)]
    · rw [if_neg h1]
      by_cases h2 : n * 10 + (c - 48) < 18446744073709551616
      · have hmod : (n * 10 + (c - 48)) % 18446744073709551616 = n * 10 + (c - 48) :=
          Nat.mod_eq_of_lt h2
        rw [hmod, if_neg (by omega)]
        have := ih (n * 10 + (c - 48)) (by norm_num; exact h2) hrest
        norm_num at this
        exact this
      · have hmod : (n * 10 + (c - 48)) % 18446744073709551616 < n * 10 := by omega
        rw [if_pos hmod, if_neg (by omega)]

theorem ParseUintLoop_nondigit (s0 rest : List Nat) (n : Nat)
    (hd : ∃ c ∈ rest, isDigit c = false) :
    ∃ e, ParseUintLoop s0 rest n = .error e := by
  induction rest generalizing n with
  | nil => simp at hd
  | cons c rest ih =>
    by_cases hc : isDigit c = true
    · have hrest : ∃ c ∈ rest, isDigit c = false := by
        obtain ⟨x, hx, hx2⟩ := hd
        rcases List.mem_cons.1 hx with h | h
        · subst h; simp [hc] at hx2
        · exact ⟨x, h, hx2⟩
      simp only [ParseUintLoop, hc, if_true]
      split
      · exact ⟨_, rfl⟩
      · split
        · exact ⟨_, rfl⟩
        · exact ih _ hrest
    · simp only [ParseUintLoop, hc]
      exact ⟨_, rfl⟩

/-- The call `ParseUint(s, 10, 64)` succeeds exactly on the non-empty runs of
digits whose decimal value fits in 64 bits, and returns that value. -/
theorem ParseUint_ok_iff (s : List Nat) (v : Nat) :
    ParseUint s = .ok v ↔
      s ≠ [] ∧ (∀ c ∈ s, isDigit c = true) ∧ decimalValue s < 2 ^ 64 ∧ v = decimalValue s := by
  unfold ParseUint
  by_cases hs : s = []
  · simp [hs]
  · rw [if_neg hs]
    by_cases hd : ∀ c ∈ s, isDigit c = true
    · rw [ParseUintLoop_digits s s 0 (by norm_num) hd]
      unfold decimalValue
      split
      · rename_i h
        constructor
        · intro hv
          injection hv with hv
          exact ⟨hs, hd, h, hv.symm⟩
        · rintro ⟨_, _, _, hv⟩
          rw [hv]
      · rename_i h
        constructor
        · intro hv; cases hv
        · rintro ⟨_, _, h2, _⟩
          exact absurd h2 h
    · have hd2 : ∃ c ∈ s, isDigit c = false := by
        push_neg at hd
        obtain ⟨c, hc, hc2⟩ := hd
        exact ⟨c, hc, by simpa using hc2⟩
      obtain ⟨e, he⟩ := ParseUintLoop_nondigit s s 0 hd2
      rw [he]
      constructor
      · intro hv; cases hv
      · rintro ⟨_, h, _⟩
        exact absurd h hd

/-! ## Lemmas: the read buffer and the steps of decodeString -/

theorem splitAfter_of_mem (d : Nat) (pre tail : List Nat) (h : d ∉ pre) :
    splitAfter d (pre ++ d :: tail) = some (pre ++ [d], tail) := by
  induction pre with
  | nil => simp [splitAfter]
  | cons c pre ih =>
    have hc : c ≠ d := fun e => h (by simp [e])
    have hp : d ∉ pre := fun e => h (List.mem_cons_of_mem _ e)
    simp [splitAfter, hc, ih hp]

theorem splitAfter_of_not_mem (d : Nat) (s : List Nat) (h : d ∉ s) :
    splitAfter d s = none := by
  induction s with
  | nil => simp [splitAfter]
  | cons c s ih =>
    have hc : c ≠ d := fun e => h (by simp [e])
    have hp : d ∉ s := fun e => h (List.mem_cons_of_mem _ e)
    simp [splitAfter, hc, ih hp]

theorem splitAfter_some (d : Nat) (s line tail : List Nat)
    (h : splitAfter d s = some (line, tail)) :
    ∃ pre, d ∉ pre ∧ line = pre ++ [d] ∧ s = pre ++ d :: tail := by
  induction s generalizing line with
  | nil => simp [splitAfter] at h
  | cons c s ih =>
    by_cases hc : c = d
    · simp only [splitAfter, hc, if_true, Option.some.injEq, Prod.mk.injEq] at h
      exact ⟨[], by simp, by simp [h.1.symm], by simp [hc, h.2]⟩
    · simp only [splitAfter, hc, if_false] at h
      cases hs : splitAfter d s with
      | none => simp [hs] at h
      | some r =>
        obtain ⟨l2, t2⟩ := r
        simp only [hs, Option.some.injEq, Prod.mk.injEq] at h
        obtain ⟨pre, h1, h2, h3⟩ := ih l2 (by rw [hs, h.2])
        refine ⟨c :: pre, ?_, ?_, ?_⟩
        · simp only [List.mem_cons, not_or]
          exact ⟨fun e => hc e.symm, h1⟩
        · simp [← h.1, h2]
        · simp [h3]

theorem splitAfter_none (d : Nat) (s : List Nat) (h : splitAfter d s = none) : d ∉ s := by
  induction s with
  | nil => simp
  | cons c s ih =>
    by_cases hc : c = d
    · simp [splitAfter, hc] at h
    · simp only [splitAfter, hc, if_false] at h
      cases hs : splitAfter d s with
      | none =>
        simp only [List.mem_cons, not_or]
        exact ⟨fun e => hc e.symm, ih hs⟩
      | some r => simp [hs] at h

theorem decodeString_eq (J : List Nat → Option Value) (b : StringBuffer) :
    decodeString J b =
      match lookUpType b with
      | .error e => .error e
      | .ok (p, s) =>
        match lookUpAttachments p s with
        | .error e => .error e
        | .ok (p, s) => decodeFromNamespace J p s := by
  unfold decodeString decodeFromNamespace
  cases h1 : lookUpType b with
  | error e => rfl
  | ok r =>
    obtain ⟨p, s⟩ := r
    cases h2 : lookUpAttachments p s with
    | error e => simp [bind, Except.bind, h2]
    | ok r2 => simp [bind, Except.bind, h2]

theorem decodeFromNamespace_eq (J : List Nat → Option Value) (p : Packet) (b : StringBuffer) :
    decodeFromNamespace J p b =
      match lookUpNamespace p b with
      | .error e => .error e
      | .ok (p, s) => decodeFromId J p s := by
  unfold decodeFromNamespace decodeFromId
  cases h1 : lookUpNamespace p b with
  | error e => rfl
  | ok r => rfl

theorem decodeFromId_eq (J : List Nat → Option Value) (p : Packet) (b : StringBuffer) :
    decodeFromId J p b =
      match lookUpId p b with
      | .error e => .error e
      | .ok (p, s) => lookUpData J p s := by
  unfold decodeFromId
  cases h1 : lookUpId p b with
  | error e => rfl
  | ok r => rfl

theorem lookUpType_nil (b : StringBuffer) (h : b.unread = []) :
    lookUpType b = .error .invalidPayload := by
  simp [lookUpType, StringBuffer.ReadByte, h]

theorem lookUpType_cons (b : StringBuffer) (c : Nat) (t : List Nat) (h : b.unread = c :: t) :
    lookUpType b =
      if PacketType.Valid c = true then
        .ok ({ Type_ := c, Nsp := [], Data := .nil, ID := none, Attachments := none },
             { consumed := c :: b.consumed, unread := t, lastRead := true })
      else .error (.unknownPacketType c) := by
  simp only [lookUpType, StringBuffer.ReadByte, h]
  by_cases hv : PacketType.Valid c = true
  · simp [hv]
  · simp [hv]

theorem lookUpAttachments_nonbinary (p : Packet) (b : StringBuffer)
    (h1 : p.Type_ ≠ BinaryEvent) (h2 : p.Type_ ≠ BinaryAck) :
    lookUpAttachments p b = .ok (p, b) := by
  simp [lookUpAttachments, h1, h2]

theorem lookUpAttachments_no_dash (p : Packet) (b : StringBuffer)
    (hb : p.Type_ = BinaryEvent ∨ p.Type_ = BinaryAck) (h : 45 ∉ b.unread) :
    lookUpAttachments p b = .error .illegalAttachments := by
  simp [lookUpAttachments, hb, StringBuffer.ReadString, splitAfter_of_not_mem 45 _ h]

theorem lookUpAttachments_dash (p : Packet) (b : StringBuffer) (ds tail : List Nat)
    (hb : p.Type_ = BinaryEvent ∨ p.Type_ = BinaryAck) (h : b.unread = ds ++ 45 :: tail)
    (hds : 45 ∉ ds) :
    lookUpAttachments p b =
      if ds = [] then .error .illegalAttachments
      else
        match ParseUint ds with
        | .error _ => .error .illegalAttachments
        | .ok a =>
          .ok ({ p with Attachments := some a },
               { consumed := (ds ++ [45]).reverse ++ b.consumed, unread := tail, lastRead := true }) := by
  simp only [lookUpAttachments, hb, if_true, StringBuffer.ReadString, h,
    splitAfter_of_mem 45 ds tail hds]
  by_cases hd : ds = []
  · simp [hd]
  · have hl : ¬ (ds ++ [45]).length < 2 := by
      have : 0 < ds.length := List.length_pos.2 hd
      simp only [List.length_append, List.length_singleton]
      omega
    have ht : (ds ++ [45]).take ((ds ++ [45]).length - 1) = ds := by
      simp [List.take_append_eq_append_take]
    rw [if_neg hl, if_neg hd, ht]

theorem lookUpNamespace_nil (p : Packet) (b : StringBuffer) (h : b.unread = []) :
    lookUpNamespace p b = .ok ({ p with Nsp := [47] }, { b with lastRead := false }) := by
  simp [lookUpNamespace, StringBuffer.ReadByte, h]

theorem lookUpNamespace_other (p : Packet) (b : StringBuffer) (c : Nat) (t : List Nat)
    (h : b.unread = c :: t) (hc : c ≠ 47) :
    lookUpNamespace p b =
      .ok ({ p with Nsp := [47] }, { consumed := b.consumed, unread := c :: t, lastRead := false }) := by
  simp [lookUpNamespace, StringBuffer.ReadByte, StringBuffer.UnreadByte, h, hc]

theorem lookUpNamespace_comma (p : Packet) (b : StringBuffer) (ns tail : List Nat)
    (h : b.unread = 47 :: (ns ++ 44 :: tail)) (hns : 44 ∉ ns) :
    lookUpNamespace p b =
      .ok ({ p with Nsp := 47 :: ns },
           { consumed := (ns ++ [44]).reverse ++ (47 :: b.consumed), unread := tail,
             lastRead := true }) := by
  have ht : (ns ++ [44]).take ((ns ++ [44]).length - 1) = ns := by
    simp [List.take_append_eq_append_take]
  have hl : ¬ (ns ++ [44]).length < 1 := by simp
  simp only [lookUpNamespace, StringBuffer.ReadByte, h, if_true, StringBuffer.ReadString,
    splitAfter_of_mem 44 ns tail hns, if_neg hl, ht]

theorem lookUpNamespace_no_comma (p : Packet) (b : StringBuffer) (ns : List Nat)
    (h : b.unread = 47 :: ns) (hns : 44 ∉ ns) :
    lookUpNamespace p b =
      .ok ({ p with Nsp := 47 :: ns },
           { consumed := ns.reverse ++ (47 :: b.consumed), unread := [], lastRead := true }) := by
  simp only [lookUpNamespace, StringBuffer.ReadByte, h, if_true, StringBuffer.ReadString,
    splitAfter_of_not_mem 44 ns hns]

theorem exists_maximalRun (s : List Nat) : ∃ ds rest, s = ds ++ rest ∧ maximalRun ds rest := by
  induction s with
  | nil => exact ⟨[], [], rfl, by simp [maximalRun]⟩
  | cons c s ih =>
    by_cases hc : isDigit c = true
    · obtain ⟨ds, rest, h1, h2, h3⟩ := ih
      refine ⟨c :: ds, rest, by simp [h1], ?_, h3⟩
      intro x hx
      rcases List.mem_cons.1 hx with h | h
      · rw [h]; exact hc
      · exact h2 x h
    · exact ⟨[], c :: s, rfl, by simp, Or.inr ⟨c, s, rfl, by simpa using hc⟩⟩

theorem maximalRun_unique (ds rest ds2 rest2 : List Nat) (h : ds ++ rest = ds2 ++ rest2)
    (h1 : maximalRun ds rest) (h2 : maximalRun ds2 rest2) : ds = ds2 ∧ rest = rest2 := by
  induction ds generalizing ds2 with
  | nil =>
    cases ds2 with
    | nil => exact ⟨rfl, by simpa using h⟩
    | cons c ds2 =>
      exfalso
      have hc : isDigit c = true := h2.1 c (List.mem_cons_self _ _)
      rcases h1.2 with hr | ⟨x, t, hr, hx⟩
      · simp [hr] at h
      · rw [hr] at h
        simp only [List.nil_append, List.cons_append, List.cons.injEq] at h
        rw [h.1] at hx
        simp [hc] at hx
  | cons c ds ih =>
    cases ds2 with
    | nil =>
      exfalso
      have hc : isDigit c = true := h1.1 c (List.mem_cons_self _ _)
      rcases h2.2 with hr | ⟨x, t, hr, hx⟩
      · simp [hr] at h
      · rw [hr] at h
        simp only [List.nil_append, List.cons_append, List.cons.injEq] at h
        rw [← h.1] at hx
        simp [hc] at hx
    | cons c2 ds2 =>
      simp only [List.cons_append, List.cons.injEq] at h
      have := ih ds2 h.2 ⟨fun x hx => h1.1 x (List.mem_cons_of_mem _ hx), h1.2⟩
        ⟨fun x hx => h2.1 x (List.mem_cons_of_mem _ hx), h2.2⟩
      exact ⟨by rw [h.1, this.1], this.2⟩

theorem lookUpIdLoop_run (ds rest id consumed : List Nat) (h : maximalRun ds rest) :
    ∃ b, b.unread = rest ∧ lookUpIdLoop id consumed (ds ++ rest) = .ok (id ++ ds, b) := by
  induction ds generalizing id consumed with
  | nil =>
    rcases h.2 with hr | ⟨c, t, hr, hc⟩
    · subst hr
      exact ⟨{ consumed := consumed, unread := [], lastRead := false }, rfl,
        by simp [lookUpIdLoop]⟩
    · subst hr
      exact ⟨{ consumed := consumed, unread := c :: t, lastRead := false }, rfl,
        by simp [lookUpIdLoop, hc, StringBuffer.UnreadByte]⟩
  | cons c ds ih =>
    have hc : isDigit c = true := h.1 c (List.mem_cons_self _ _)
    obtain ⟨b, hb1, hb2⟩ := ih (id ++ [c]) (c :: consumed)
      ⟨fun x hx => h.1 x (List.mem_cons_of_mem _ hx), h.2⟩
    exact ⟨b, hb1, by simp [lookUpIdLoop, hc, hb2]⟩

theorem lookUpId_run (p : Packet) (b : StringBuffer) (ds rest : List Nat)
    (h : b.unread = ds ++ rest) (hm : maximalRun ds rest) :
    ∃ b2, b2.unread = rest ∧
      lookUpId p b =
        if ds = [] then .ok (p, b2)
        else
          match ParseUint ds with
          | .error e => .error e
          | .ok n => .ok ({ p with ID := some n }, b2) := by
  by_cases hlen : b.Len > 0
  · obtain ⟨b2, hb1, hb2⟩ := lookUpIdLoop_run ds rest [] b.consumed hm
    refine ⟨b2, hb1, ?_⟩
    simp only [lookUpId, hlen, if_true, h, hb2, List.nil_append]
    by_cases hd : ds = []
    · simp [hd]
    · have : ds.length > 0 := List.length_pos.2 hd
      simp only [this, if_true, hd, if_false]
  · have hu : b.unread = [] := by
      simpa [StringBuffer.Len] using hlen
    rw [hu] at h
    have hds : ds = [] := by
      cases ds with
      | nil => rfl
      | cons c t => simp at h
    have hrest : rest = [] := by
      subst hds
      simpa using h.symm
    refine ⟨b, by rw [hu, hrest], ?_⟩
    simp [lookUpId, hlen, hds]

theorem lookUpData_congr (J : List Nat → Option Value) (p : Packet) (b b2 : StringBuffer)
    (h : b.unread = b2.unread) : lookUpData J p b = lookUpData J p b2 := by
  simp [lookUpData, StringBuffer.Len, h]

theorem lookUpData_nil (J : List Nat → Option Value) (p : Packet) (b : StringBuffer)
    (h : b.unread = []) : lookUpData J p b = .ok p := by
  simp [lookUpData, StringBuffer.Len, h]

theorem lookUpData_cons (J : List Nat → Option Value) (p : Packet) (b : StringBuffer)
    (h : b.unread ≠ []) :
    lookUpData J p b =
      match J b.unread with
      | none => .error .invalidPayload
      | some payload =>
        if isPayloadValid p.Type_ payload = true then .ok { p with Data := payload }
        else .error .invalidPayload := by
  have : b.Len > 0 := List.length_pos.2 h
  simp [lookUpData, this]

theorem decodeFromId_run (J : List Nat → Option Value) (p : Packet) (b : StringBuffer)
    (ds rest : List Nat) (h : b.unread = ds ++ rest) (hm : maximalRun ds rest) :
    decodeFromId J p b =
      if ds = [] then lookUpData J p (NewStringBufferString rest)
      else
        match ParseUint ds with
        | .error e => .error e
        | .ok n => lookUpData J { p with ID := some n } (NewStringBufferString rest) := by
  obtain ⟨b2, hb1, hb2⟩ := lookUpId_run p b ds rest h hm
  rw [decodeFromId_eq, hb2]
  by_cases hd : ds = []
  · simp only [hd, if_true]
    exact lookUpData_congr J p b2 _ (by simp [hb1, NewStringBufferString])
  · simp only [hd, if_false]
    cases ParseUint ds with
    | error e => rfl
    | ok n => exact lookUpData_congr J _ b2 _ (by simp [hb1, NewStringBufferString])

/-- The steps from "look up id" on depend on the unread bytes only. -/
theorem decodeFromId_congr (J : List Nat → Option Value) (p : Packet) (b b2 : StringBuffer)
    (h : b.unread = b2.unread) : decodeFromId J p b = decodeFromId J p b2 := by
  obtain ⟨ds, rest, hs, hm⟩ := exists_maximalRun b.unread
  rw [decodeFromId_run J p b ds rest hs hm, decodeFromId_run J p b2 ds rest (h ▸ hs) hm]

/-- The steps from "look up namespace" on depend on the unread bytes only. -/
theorem decodeFromNamespace_congr (J : List Nat → Option Value) (p : Packet)
    (b b2 : StringBuffer) (h : b.unread = b2.unread) :
    decodeFromNamespace J p b = decodeFromNamespace J p b2 := by
  rw [decodeFromNamespace_eq, decodeFromNamespace_eq]
  cases hu : b.unread with
  | nil =>
    rw [lookUpNamespace_nil p b hu, lookUpNamespace_nil p b2 (h ▸ hu)]
    exact decodeFromId_congr J _ _ _ (by simp [hu, ← h])
  | cons c t =>
    by_cases hc : c = 47
    · subst hc
      by_cases hm : 44 ∈ t
      · obtain ⟨ns, tail, ht, hns⟩ : ∃ ns tail, t = ns ++ 44 :: tail ∧ 44 ∉ ns := by
          cases hsp : splitAfter 44 t with
          | none => exact absurd hm (splitAfter_none 44 t hsp)
          | some r =>
            obtain ⟨pre, h1, _, h3⟩ := splitAfter_some 44 t r.1 r.2 hsp
            exact ⟨pre, r.2, h3, h1⟩
        subst ht
        rw [lookUpNamespace_comma p b ns tail hu hns,
          lookUpNamespace_comma p b2 ns tail (h ▸ hu) hns]
        exact decodeFromId_congr J _ _ _ rfl
      · rw [lookUpNamespace_no_comma p b t hu hm, lookUpNamespace_no_comma p b2 t (h ▸ hu) hm]
        exact decodeFromId_congr J _ _ _ rfl
    · rw [lookUpNamespace_other p b c t hu hc, lookUpNamespace_other p b2 c t (h ▸ hu) hc]
      exact decodeFromId_congr J _ _ _ rfl

/-- The steps from "look up id" on keep the type, namespace and attachments. -/
theorem decodeFromId_keeps (J : List Nat → Option Value) (p q : Packet) (b : StringBuffer)
    (h : decodeFromId J p b = .ok q) :
    q.Type_ = p.Type_ ∧ q.Nsp = p.Nsp ∧ q.Attachments = p.Attachments := by
  obtain ⟨ds, rest, hs, hm⟩ := exists_maximalRun b.unread
  rw [decodeFromId_run J p b ds rest hs hm] at h
  have key : ∀ p2 : Packet, lookUpData J p2 (NewStringBufferString rest) = .ok q →
      q.Type_ = p2.Type_ ∧ q.Nsp = p2.Nsp ∧ q.Attachments = p2.Attachments := by
    intro p2 h2
    unfold lookUpData at h2
    split at h2
    · split at h2
      · cases h2
      · split at h2
        · injection h2 with h2
          subst h2
          exact ⟨rfl, rfl, rfl⟩
        · cases h2
    · injection h2 with h2
      subst h2
      exact ⟨rfl, rfl, rfl⟩
  by_cases hd : ds = []
  · rw [if_pos hd] at h
    exact key p h
  · rw [if_neg hd] at h
    cases hp : ParseUint ds with
    | error e => simp [hp] at h
    | ok n =>
      simp only [hp] at h
      exact key { p with ID := some n } h

theorem decodeString_nil (J : List Nat → Option Value) :
    decodeString J (NewStringBufferString []) = .error .invalidPayload := by
  rw [decodeString_eq, lookUpType_nil _ rfl]

theorem decodeString_invalid_type (J : List Nat → Option Value) (c : Nat) (rest : List Nat)
    (h : PacketType.Valid c = false) :
    decodeString J (NewStringBufferString (c :: rest)) = .error (.unknownPacketType c) := by
  rw [decodeString_eq, lookUpType_cons _ c rest rfl]
  simp [h]

theorem decodeString_nonbinary (J : List Nat → Option Value) (ty : Nat) (text : List Nat)
    (hv : PacketType.Valid ty = true) (h1 : ty ≠ BinaryEvent) (h2 : ty ≠ BinaryAck) :
    decodeString J (NewStringBufferString (ty :: text)) =
      decodeFromNamespace J
        { Type_ := ty, Nsp := [], Data := .nil, ID := none, Attachments := none }
        (NewStringBufferString text) := by
  rw [decodeString_eq, lookUpType_cons _ ty text rfl]
  simp only [hv, if_true]
  rw [lookUpAttachments_nonbinary _ _ h1 h2]
  exact decodeFromNamespace_congr J _ _ _ rfl

theorem decodeString_binary_no_dash (J : List Nat → Option Value) (ty : Nat) (rest : List Nat)
    (hb : ty = BinaryEvent ∨ ty = BinaryAck) (h : 45 ∉ rest) :
    decodeString J (NewStringBufferString (ty :: rest)) = .error .illegalAttachments := by
  have hv : PacketType.Valid ty = true := by
    rcases hb with h | h <;> (rw [h]; decide)
  rw [decodeString_eq, lookUpType_cons _ ty rest rfl]
  simp only [hv, if_true]
  rw [lookUpAttachments_no_dash _ _ hb h]

theorem decodeString_binary_dash (J : List Nat → Option Value) (ty : Nat) (ds text : List Nat)
    (hb : ty = BinaryEvent ∨ ty = BinaryAck) (hds : 45 ∉ ds) :
    decodeString J (NewStringBufferString (ty :: (ds ++ 45 :: text))) =
      if ds = [] then .error .illegalAttachments
      else
        match ParseUint ds with
        | .error _ => .error .illegalAttachments
        | .ok a =>
          decodeFromNamespace J
            { Type_ := ty, Nsp := [], Data := .nil, ID := none, Attachments := some a }
            (NewStringBufferString text) := by
  have hv : PacketType.Valid ty = true := by
    rcases hb with h | h <;> (rw [h]; decide)
  rw [decodeString_eq, lookUpType_cons _ ty _ rfl]
  simp only [hv, if_true]
  rw [lookUpAttachments_dash _ _ ds text hb rfl hds]
  by_cases hd : ds = []
  · simp [hd]
  · simp only [hd, if_false]
    cases ParseUint ds with
    | error e => rfl
    | ok a => exact decodeFromNamespace_congr J _ _ _ rfl

theorem decodeFromNamespace_comma (J : List Nat → Option Value) (p : Packet)
    (ns tail : List Nat) (hns : 44 ∉ ns) :
    decodeFromNamespace J p (NewStringBufferString (47 :: (ns ++ 44 :: tail))) =
      decodeFromId J { p with Nsp := 47 :: ns } (NewStringBufferString tail) := by
  rw [decodeFromNamespace_eq, lookUpNamespace_comma p _ ns tail rfl hns]
  exact decodeFromId_congr J _ _ _ rfl

theorem decodeFromNamespace_no_comma (J : List Nat → Option Value) (p : Packet)
    (ns : List Nat) (hns : 44 ∉ ns) :
    decodeFromNamespace J p (NewStringBufferString (47 :: ns)) =
      .ok { p with Nsp := 47 :: ns } := by
  rw [decodeFromNamespace_eq, lookUpNamespace_no_comma p _ ns rfl hns]
  simp only []
  rw [decodeFromId_run J _ _ [] [] rfl ⟨by simp, Or.inl rfl⟩]
  simp [lookUpData_nil J _ (NewStringBufferString []) rfl]

theorem decodeFromNamespace_other (J : List Nat → Option Value) (p : Packet)
    (text : List Nat) (h : text = [] ∨ ∃ c t, text = c :: t ∧ c ≠ 47) :
    decodeFromNamespace J p (NewStringBufferString text) =
      decodeFromId J { p with Nsp := [47] } (NewStringBufferString text) := by
  rw [decodeFromNamespace_eq]
  rcases h with h | ⟨c, t, h, hc⟩
  · subst h
    rw [lookUpNamespace_nil p _ rfl]
    exact decodeFromId_congr J _ _ _ rfl
  · subst h
    rw [lookUpNamespace_other p _ c t rfl hc]
    exact decodeFromId_congr J _ _ _ rfl

/-- An accepted frame, split into its type byte, attachment-count prefix and
the text after them: the packet is what the steps from "look up namespace" on
give on that text. -/
theorem accepted_from_namespace (J : List Nat → Option Value) (p : Packet)
    (ty : Nat) (pre text : List Nat) (hp : countPrefix ty pre)
    (h : decodeString J (NewStringBufferString (ty :: (pre ++ text))) = .ok p) :
    ∃ att, decodeFromNamespace J
        { Type_ := ty, Nsp := [], Data := .nil, ID := none, Attachments := att }
        (NewStringBufferString text) = .ok p ∧
      (pre = [] → att = none) ∧
      (∀ count, pre = count ++ [45] → ParseUint count = .ok (att.getD 0) ∧ att.isSome) := by
  have hv : PacketType.Valid ty = true := by
    by_contra hv
    rw [decodeString_invalid_type J ty _ (by simpa using hv)] at h
    cases h
  rcases hp with ⟨h1, h2, hpre⟩ | ⟨hb, count, hpre, hc⟩
  · subst hpre
    rw [List.nil_append, decodeString_nonbinary J ty text hv h1 h2] at h
    exact ⟨none, h, fun _ => rfl, fun count hc => by simp at hc⟩
  · subst hpre
    rw [List.append_assoc, List.singleton_append, decodeString_binary_dash J ty count text hb hc]
      at h
    by_cases hd : count = []
    · rw [if_pos hd] at h; cases h
    · rw [if_neg hd] at h
      cases hpu : ParseUint count with
      | error e => simp [hpu] at h
      | ok a =>
        simp only [hpu] at h
        refine ⟨some a, h, fun hn => by simp at hn, fun c2 hc2 => ?_⟩
        have : count = c2 := by simpa using hc2
        subst this
        exact ⟨by simpa using hpu, rfl⟩

theorem lookUpNamespace_keeps (q q2 : Packet) (b b2 : StringBuffer)
    (h : lookUpNamespace q b = .ok (q2, b2)) :
    q2.Type_ = q.Type_ ∧ q2.Attachments = q.Attachments ∧ q2.ID = q.ID ∧ q2.Data = q.Data := by
  cases hu : b.unread with
  | nil =>
    rw [lookUpNamespace_nil q b hu] at h
    injection h with h
    injection h with h1 h2
    subst h1
    exact ⟨rfl, rfl, rfl, rfl⟩
  | cons c t =>
    by_cases hc : c = 47
    · subst hc
      by_cases hm : 44 ∈ t
      · obtain ⟨ns, tail, ht, hns⟩ : ∃ ns tail, t = ns ++ 44 :: tail ∧ 44 ∉ ns := by
          cases hsp : splitAfter 44 t with
          | none => exact absurd hm (splitAfter_none 44 t hsp)
          | some r =>
            obtain ⟨pre, h1, _, h3⟩ := splitAfter_some 44 t r.1 r.2 hsp
            exact ⟨pre, r.2, h3, h1⟩
        subst ht
        rw [lookUpNamespace_comma q b ns tail hu hns] at h
        injection h with h
        injection h with h1 h2
        subst h1
        exact ⟨rfl, rfl, rfl, rfl⟩
      · rw [lookUpNamespace_no_comma q b t hu hm] at h
        injection h with h
        injection h with h1 h2
        subst h1
        exact ⟨rfl, rfl, rfl, rfl⟩
    · rw [lookUpNamespace_other q b c t hu hc] at h
      injection h with h
      injection h with h1 h2
      subst h1
      exact ⟨rfl, rfl, rfl, rfl⟩

/-- The steps from "look up namespace" on keep the type and the attachments. -/
theorem decodeFromNamespace_keeps (J : List Nat → Option Value) (q p : Packet)
    (b : StringBuffer) (h : decodeFromNamespace J q b = .ok p) :
    p.Type_ = q.Type_ ∧ p.Attachments = q.Attachments := by
  rw [decodeFromNamespace_eq] at h
  cases hn : lookUpNamespace q b with
  | error e => simp [hn] at h
  | ok r =>
    obtain ⟨q2, b2⟩ := r
    simp only [hn] at h
    have h1 := lookUpNamespace_keeps q q2 b b2 hn
    have h2 := decodeFromId_keeps J q2 p b2 h
    exact ⟨h2.1.trans h1.1, h2.2.2.trans h1.2.1⟩

theorem lookUpAttachments_keeps (q q2 : Packet) (b b2 : StringBuffer)
    (h : lookUpAttachments q b = .ok (q2, b2)) :
    q2.Type_ = q.Type_ ∧ q2.Nsp = q.Nsp ∧ q2.ID = q.ID ∧ q2.Data = q.Data := by
  by_cases hb : q.Type_ = BinaryEvent ∨ q.Type_ = BinaryAck
  · by_cases hm : 45 ∈ b.unread
    · cases hsp : splitAfter 45 b.unread with
      | none => exact absurd hm (splitAfter_none 45 _ hsp)
      | some r =>
        obtain ⟨ds, h1, _, h3⟩ := splitAfter_some 45 _ r.1 r.2 hsp
        rw [lookUpAttachments_dash q b ds r.2 hb h3 h1] at h
        by_cases hd : ds = []
        · rw [if_pos hd] at h; cases h
        · rw [if_neg hd] at h
          cases hpu : ParseUint ds with
          | error e => simp [hpu] at h
          | ok a =>
            simp only [hpu] at h
            injection h with h
            injection h with h1 h2
            subst h1
            exact ⟨rfl, rfl, rfl, rfl⟩
    · rw [lookUpAttachments_no_dash q b hb hm] at h
      cases h
  · push_neg at hb
    rw [lookUpAttachments_nonbinary q b hb.1 hb.2] at h
    injection h with h
    injection h with h1 h2
    subst h1
    exact ⟨rfl, rfl, rfl, rfl⟩

/-- The type of an accepted frame is its first byte, a valid type. -/
theorem accepted_type (J : List Nat → Option Value) (p : Packet) (c : Nat) (rest : List Nat)
    (h : decodeString J (NewStringBufferString (c :: rest)) = .ok p) :
    p.Type_ = c ∧ PacketType.Valid c = true := by
  have hv : PacketType.Valid c = true := by
    by_contra hv
    rw [decodeString_invalid_type J c _ (by simpa using hv)] at h
    cases h
  refine ⟨?_, hv⟩
  rw [decodeString_eq, lookUpType_cons _ c rest rfl] at h
  simp only [hv, if_true] at h
  cases ha : lookUpAttachments
      { Type_ := c, Nsp := [], Data := .nil, ID := none, Attachments := none }
      { consumed := c :: (NewStringBufferString (c :: rest)).consumed, unread := rest,
        lastRead := true } with
  | error e => simp [ha] at h
  | ok r =>
    obtain ⟨q, b⟩ := r
    simp only [ha] at h
    have hq : q.Type_ = c := (lookUpAttachments_keeps _ q _ b ha).1
    exact (decodeFromNamespace_keeps J q p b h).1.trans hq

/-- Every accepted frame is a type byte, an attachment-count prefix and the
text after them. -/
theorem accepted_shape (J : List Nat → Option Value) (s : List Nat) (p : Packet)
    (h : decodeString J (NewStringBufferString s) = .ok p) :
    ∃ pre text, s = p.Type_ :: (pre ++ text) ∧ countPrefix p.Type_ pre := by
  cases s with
  | nil => rw [decodeString_nil] at h; cases h
  | cons c rest =>
    obtain ⟨ht, hv⟩ := accepted_type J p c rest h
    rw [ht]
    by_cases hb : c = BinaryEvent ∨ c = BinaryAck
    · by_cases hm : 45 ∈ rest
      · cases hsp : splitAfter 45 rest with
        | none => exact absurd hm (splitAfter_none 45 rest hsp)
        | some r =>
          obtain ⟨ds, h1, _, h3⟩ := splitAfter_some 45 rest r.1 r.2 hsp
          exact ⟨ds ++ [45], r.2, by simp [h3], Or.inr ⟨hb, ds, rfl, h1⟩⟩
      · rw [decodeString_binary_no_dash J c rest hb hm] at h
        cases h
    · push_neg at hb
      exact ⟨[], rest, rfl, Or.inl ⟨hb.1, hb.2, rfl⟩⟩

/-- Every text is a namespace part, a maximal run of digits and a rest. -/
theorem exists_parts (text : List Nat) :
    ∃ nsp ds rest, text = nsp ++ (ds ++ rest) ∧ namespacePart nsp (ds ++ rest) ∧
      maximalRun ds rest := by
  cases text with
  | nil => exact ⟨[], [], [], rfl, Or.inl ⟨rfl, Or.inl rfl⟩, by simp [maximalRun]⟩
  | cons c t =>
    by_cases hc : c = 47
    · subst hc
      by_cases hm : 44 ∈ t
      · cases hsp : splitAfter 44 t with
        | none => exact absurd hm (splitAfter_none 44 t hsp)
        | some r =>
          obtain ⟨ns, h1, _, h3⟩ := splitAfter_some 44 t r.1 r.2 hsp
          obtain ⟨ds, rest, hs, hmr⟩ := exists_maximalRun r.2
          exact ⟨47 :: (ns ++ [44]), ds, rest, by simp [h3, hs], Or.inr (Or.inl ⟨ns, h1, rfl⟩),
            hmr⟩
      · exact ⟨47 :: t, [], [], by simp, Or.inr (Or.inr ⟨t, hm, rfl, rfl⟩), by simp [maximalRun]⟩
    · obtain ⟨ds, rest, hs, hmr⟩ := exists_maximalRun (c :: t)
      exact ⟨[], ds, rest, by simp [hs], Or.inl ⟨rfl, Or.inr ⟨c, t, hs.symm, hc⟩⟩, hmr⟩

theorem lookUpData_keeps (J : List Nat → Option Value) (q p : Packet) (b : StringBuffer)
    (h : lookUpData J q b = .ok p) :
    p.Type_ = q.Type_ ∧ p.Nsp = q.Nsp ∧ p.ID = q.ID ∧ p.Attachments = q.Attachments := by
  unfold lookUpData at h
  split at h
  · split at h
    · cases h
    · split at h
      · injection h with h
        subst h
        exact ⟨rfl, rfl, rfl, rfl⟩
      · cases h
  · injection h with h
    subst h
    exact ⟨rfl, rfl, rfl, rfl⟩

/-- The id and payload steps on a packet without id and data, run on a maximal
run of digits `ds` followed by `rest`. -/
theorem decodeFromId_accepts (J : List Nat → Option Value) (q p : Packet) (ds rest : List Nat)
    (hm : maximalRun ds rest) (hid : q.ID = none) (hdata : q.Data = .nil)
    (h : decodeFromId J q (NewStringBufferString (ds ++ rest)) = .ok p) :
    (p.ID = none ↔ ds = []) ∧ (ds ≠ [] → p.ID = some (decimalValue ds)) ∧
      decimalValue ds < 2 ^ 64 ∧
      lookUpData J { p with Data := .nil } (NewStringBufferString rest) = .ok p := by
  rw [decodeFromId_run J q _ ds rest rfl hm] at h
  by_cases hd : ds = []
  · rw [if_pos hd] at h
    have hk := lookUpData_keeps J q p _ h
    have hq : ({ p with Data := .nil } : Packet) = q := by
      cases q
      cases p
      simp only [Packet.mk.injEq] at hk hdata ⊢
      exact ⟨hk.1, hk.2.1, hdata.symm, hk.2.2.1, hk.2.2.2⟩
    rw [hq]
    refine ⟨?_, fun hne => absurd hd hne, by simp [hd, decimalValue], h⟩
    rw [hk.2.2.1, hid]
    simp [hd]
  · rw [if_neg hd] at h
    cases hpu : ParseUint ds with
    | error e => simp [hpu] at h
    | ok n =>
      simp only [hpu] at h
      obtain ⟨-, -, hlt, hn⟩ := (ParseUint_ok_iff ds n).1 hpu
      have hk := lookUpData_keeps J _ p _ h
      have hq : ({ p with Data := .nil } : Packet) = { q with ID := some n } := by
        cases q
        cases p
        simp only [Packet.mk.injEq] at hk hdata ⊢
        exact ⟨hk.1, hk.2.1, hdata.symm, hk.2.2.1, hk.2.2.2⟩
      rw [hq]
      refine ⟨?_, fun _ => ?_, hlt, h⟩
      · rw [hk.2.2.1]
        simp [hd]
      · rw [hk.2.2.1, hn]

/-- On an Idle decoder `Add` of a text frame is `decodeAsString` on its bytes. -/
theorem Add_text_idle {R : Type} (J : List Nat → Option Value) (ops : ReconstructorOps R)
    (d : decoder R) (f : Frame) (s : List Nat) (hf : f.text? = some s)
    (hidle : d.reconstructor = none) :
    Add J ops d f = decodeAsString J ops d (NewStringBufferString s) := by
  cases f with
  | string t =>
    have : t = s := by simpa [Frame.text?] using hf
    simp [Add, hidle, this]
  | reader t =>
    have : t = s := by simpa [Frame.text?] using hf
    simp [Add, hidle, this]
  | stringBuffer t =>
    have : t = s := by simpa [Frame.text?] using hf
    simp [Add, hidle, this]
  | binary t => simp [Frame.text?] at hf
  | other => simp [Frame.text?] at hf

/-! ## The claims -/

/-- C1: for every text frame that `decodeString` accepts, split (in the one
possible way) into its type byte, the attachment-count prefix of the binary
types and the text after them: if the text is `'/'`, a run `ns` without `','`,
then `','`, the namespace is `"/" ++ ns`; if it is `'/'` and a run `ns` with no
`','` at all, the namespace is `"/" ++ ns` and the packet has no id and no data;
if it is empty or starts with another byte, the namespace is `"/"` and the id
and payload steps run on the whole text, that byte included. -/
theorem decodeString_namespace (J : List Nat → Option Value) (s : List Nat) (p : Packet)
    (h : decodeString J (NewStringBufferString s) = .ok p) :
    (∃ pre text, s = p.Type_ :: (pre ++ text) ∧ countPrefix p.Type_ pre) ∧
    ∀ pre text, s = p.Type_ :: (pre ++ text) → countPrefix p.Type_ pre →
      (∀ ns tail, text = 47 :: (ns ++ 44 :: tail) → 44 ∉ ns → p.Nsp = 47 :: ns) ∧
      (∀ ns, text = 47 :: ns → 44 ∉ ns → p.Nsp = 47 :: ns ∧ p.ID = none ∧ p.Data = .nil) ∧
      ((text = [] ∨ ∃ c t, text = c :: t ∧ c ≠ 47) →
        p.Nsp = [47] ∧
        decodeFromId J { p with ID := none, Data := .nil } (NewStringBufferString text) =
          .ok p) := by
  refine ⟨accepted_shape J s p h, ?_⟩
  intro pre text hs hp
  subst hs
  obtain ⟨att, hn, -, -⟩ := accepted_from_namespace J p p.Type_ pre text hp h
  have hk := decodeFromNamespace_keeps J _ p _ hn
  refine ⟨?_, ?_, ?_⟩
  · intro ns tail ht hns
    subst ht
    rw [decodeFromNamespace_comma J _ ns tail hns] at hn
    exact (decodeFromId_keeps J _ p _ hn).2.1
  · intro ns ht hns
    subst ht
    rw [decodeFromNamespace_no_comma J _ ns hns] at hn
    injection hn with hn
    rw [← hn]
    exact ⟨rfl, rfl, rfl⟩
  · intro ht
    rw [decodeFromNamespace_other J _ text ht] at hn
    have hk2 := decodeFromId_keeps J _ p _ hn
    refine ⟨hk2.2.1, ?_⟩
    have hq : ({ p with ID := none, Data := .nil } : Packet) =
        { Type_ := p.Type_, Nsp := [47], Data := .nil, ID := none, Attachments := att } := by
      have h1 : p.Nsp = [47] := hk2.2.1
      have h2 : p.Attachments = att := hk.2
      rw [h1, h2]
    rw [hq]
    exact hn

/-- C1 at the frames `0/admin,{"token":"abc"}` and `0{"token":"abc"}` of the
spec: namespaces `/admin` and `/`, both CONNECT with the same data. -/
theorem decodeString_namespace_witness :
    decodeString goJsonDecode
        (NewStringBufferString (ascii "0/admin,\x7b\"token\":\"abc\"\x7d")) =
      .ok { Type_ := Connect, Nsp := ascii "/admin",
            Data := .object [(ascii "token", .string (ascii "abc"))],
            ID := none, Attachments := none } ∧
    ascii "/admin" = 47 :: ascii "admin" ∧
    decodeString goJsonDecode (NewStringBufferString (ascii "0\x7b\"token\":\"abc\"\x7d")) =
      .ok { Type_ := Connect, Nsp := ascii "/",
            Data := .object [(ascii "token", .string (ascii "abc"))],
            ID := none, Attachments := none } ∧
    ascii "/" = [47] :=
  ⟨rfl,
   ((decodeString_namespace goJsonDecode (ascii "0/admin,\x7b\"token\":\"abc\"\x7d")
      { Type_ := Connect, Nsp := ascii "/admin",
        Data := .object [(ascii "token", .string (ascii "abc"))],
        ID := none, Attachments := none } rfl).2 []
      (ascii "/admin,\x7b\"token\":\"abc\"\x7d") rfl
      (Or.inl ⟨by decide, by decide, rfl⟩)).1 (ascii "admin")
      (ascii "\x7b\"token\":\"abc\"\x7d") rfl (by decide),
   rfl,
   (((decodeString_namespace goJsonDecode (ascii "0\x7b\"token\":\"abc\"\x7d")
      { Type_ := Connect, Nsp := ascii "/",
        Data := .object [(ascii "token", .string (ascii "abc"))],
        ID := none, Attachments := none } rfl).2 []
      (ascii "\x7b\"token\":\"abc\"\x7d") rfl
      (Or.inl ⟨by decide, by decide, rfl⟩)).2.2
      (Or.inr ⟨123, ascii "\"token\":\"abc\"\x7d", rfl, by decide⟩)).1⟩

/-- C2: for every text frame that `decodeString` accepts, split (in the one
possible way) into type byte, attachment-count prefix, namespace part, the
maximal run of digits `ds` that follows the namespace part, and the rest: the
id is absent exactly when `ds` is empty and is otherwise the decimal value of
`ds` (below 2^64), and the payload step runs on the rest, which starts at the
first byte that is not a digit. -/
theorem decodeString_ack_id (J : List Nat → Option Value) (s : List Nat) (p : Packet)
    (h : decodeString J (NewStringBufferString s) = .ok p) :
    (∃ pre nsp ds rest, s = p.Type_ :: (pre ++ (nsp ++ (ds ++ rest))) ∧
      countPrefix p.Type_ pre ∧ namespacePart nsp (ds ++ rest) ∧ maximalRun ds rest) ∧
    ∀ pre nsp ds rest, s = p.Type_ :: (pre ++ (nsp ++ (ds ++ rest))) →
      countPrefix p.Type_ pre → namespacePart nsp (ds ++ rest) → maximalRun ds rest →
      (p.ID = none ↔ ds = []) ∧ (ds ≠ [] → p.ID = some (decimalValue ds)) ∧
      decimalValue ds < 2 ^ 64 ∧
      lookUpData J { p with Data := .nil } (NewStringBufferString rest) = .ok p := by
  constructor
  · obtain ⟨pre, text, hs, hp⟩ := accepted_shape J s p h
    obtain ⟨nsp, ds, rest, ht, hn, hm⟩ := exists_parts text
    exact ⟨pre, nsp, ds, rest, by rw [hs, ht], hp, hn, hm⟩
  · intro pre nsp ds rest hs hp hnsp hm
    subst hs
    obtain ⟨att, hn, -, -⟩ := accepted_from_namespace J p p.Type_ pre _ hp h
    rcases hnsp with ⟨h1, h2⟩ | ⟨ns, hns, h1⟩ | ⟨ns, hns, h1, h2⟩
    · subst h1
      rw [List.nil_append, decodeFromNamespace_other J _ _ h2] at hn
      exact decodeFromId_accepts J _ p ds rest hm rfl rfl hn
    · subst h1
      rw [List.cons_append, List.append_assoc, List.singleton_append,
        decodeFromNamespace_comma J _ ns _ hns] at hn
      exact decodeFromId_accepts J _ p ds rest hm rfl rfl hn
    · subst h1
      have hds : ds = [] := by
        cases ds with
        | nil => rfl
        | cons c t => simp at h2
      subst hds
      have hrest : rest = [] := by simpa using h2
      subst hrest
      rw [List.append_nil, List.append_nil, decodeFromNamespace_no_comma J _ ns hns] at hn
      injection hn with hn
      rw [← hn]
      refine ⟨by simp, fun hne => absurd rfl hne, by simp [decimalValue], ?_⟩
      exact lookUpData_nil J _ _ rfl

/-- C2 at the frame `3/admin,12["ack-payload"]` of the spec: namespace
`/admin`, id 12, data `["ack-payload"]`. -/
theorem decodeString_ack_id_witness :
    decodeString goJsonDecode (NewStringBufferString (ascii "3/admin,12[\"ack-payload\"]")) =
      .ok { Type_ := Ack, Nsp := ascii "/admin",
            Data := .array [.string (ascii "ack-payload")],
            ID := some 12, Attachments := none } ∧
    some 12 = some (decimalValue (ascii "12")) :=
  ⟨rfl,
   ((decodeString_ack_id goJsonDecode (ascii "3/admin,12[\"ack-payload\"]")
      { Type_ := Ack, Nsp := ascii "/admin", Data := .array [.string (ascii "ack-payload")],
        ID := some 12, Attachments := none } rfl).2 []
      (ascii "/admin,") (ascii "12") (ascii "[\"ack-payload\"]") rfl
      (Or.inl ⟨by decide, by decide, rfl⟩)
      (Or.inr (Or.inl ⟨ascii "admin", by decide, rfl⟩))
      ⟨by decide, Or.inr ⟨91, ascii "\"ack-payload\"]", rfl, by decide⟩⟩).2.1 (by decide)⟩

/-- C4: for every payload value `p`, `isPayloadValid(EVENT, p)` and
`isPayloadValid(BINARY_EVENT, p)` hold exactly when `p` is an array with at
least one element whose first element is a string other than `connect`,
`connect_error`, `disconnect` and `disconnecting`. -/
theorem isPayloadValid_event (p : Value) :
    (isPayloadValid Event p = true ↔
      ∃ event rest, p = .array (.string event :: rest) ∧ event ≠ ascii "connect" ∧
        event ≠ ascii "connect_error" ∧ event ≠ ascii "disconnect" ∧
        event ≠ ascii "disconnecting") ∧
    (isPayloadValid BinaryEvent p = true ↔
      ∃ event rest, p = .array (.string event :: rest) ∧ event ≠ ascii "connect" ∧
        event ≠ ascii "connect_error" ∧ event ≠ ascii "disconnect" ∧
        event ≠ ascii "disconnecting") := by
  have key : ∀ t : PacketType, t = Event ∨ t = BinaryEvent →
      (isPayloadValid t p = true ↔
        ∃ event rest, p = .array (.string event :: rest) ∧ event ≠ ascii "connect" ∧
          event ≠ ascii "connect_error" ∧ event ≠ ascii "disconnect" ∧
          event ≠ ascii "disconnecting") := by
    intro t ht
    have h1 : t ≠ Connect := by rcases ht with h | h <;> (rw [h]; decide)
    have h2 : t ≠ Disconnect := by rcases ht with h | h <;> (rw [h]; decide)
    have h3 : t ≠ ConnectError := by rcases ht with h | h <;> (rw [h]; decide)
    unfold isPayloadValid
    rw [if_neg h1, if_neg h2, if_neg h3, if_pos ht]
    cases p with
    | array elems =>
      cases elems with
      | nil => simp
      | cons first rest =>
        cases first with
        | string event =>
          simp only [ReservedEvents, List.mem_cons, List.mem_singleton, List.not_mem_nil,
            or_false, Bool.not_eq_true', decide_eq_false_iff_not, not_or, Value.array.injEq,
            List.cons.injEq, Value.string.injEq]
          constructor
          · intro h
            exact ⟨event, rest, ⟨rfl, rfl⟩, h.1, h.2.1, h.2.2.1, h.2.2.2⟩
          · rintro ⟨e, r, ⟨he, -⟩, h⟩
            rw [he]
            exact ⟨h.1, h.2.1, h.2.2.1, h.2.2.2⟩
        | _ => simp
    | _ => simp
  exact ⟨key Event (Or.inl rfl), key BinaryEvent (Or.inr rfl)⟩

/-- C5: for every text frame whose type byte is `'5'` (BINARY_EVENT) or `'6'`
(BINARY_ACK): `decodeString` fails with `illegal attachments` whenever the text
after the type byte does not begin with a non-empty run of digits followed by
`'-'`; and when it does, the value of the run being below 2^64, decoding is the
namespace, id and payload steps run on the text right after the `'-'`, on a
packet whose `Attachments` is the decimal value of the run, which is therefore
the `Attachments` of the packet returned. -/
theorem decodeString_attachments (J : List Nat → Option Value) (ty : Nat)
    (hty : ty = BinaryEvent ∨ ty = BinaryAck) :
    (∀ rest, (¬ ∃ ds tail, rest = ds ++ 45 :: tail ∧ ds ≠ [] ∧ ∀ c ∈ ds, isDigit c = true) →
      decodeString J (NewStringBufferString (ty :: rest)) = .error .illegalAttachments) ∧
    (∀ ds tail, ds ≠ [] → (∀ c ∈ ds, isDigit c = true) → decimalValue ds < 2 ^ 64 →
      decodeString J (NewStringBufferString (ty :: (ds ++ 45 :: tail))) =
        decodeFromNamespace J
          { Type_ := ty, Nsp := [], Data := .nil, ID := none,
            Attachments := some (decimalValue ds) }
          (NewStringBufferString tail) ∧
      ∀ p, decodeString J (NewStringBufferString (ty :: (ds ++ 45 :: tail))) = .ok p →
        p.Attachments = some (decimalValue ds)) := by
  constructor
  · intro rest hno
    by_cases hm : 45 ∈ rest
    · cases hsp : splitAfter 45 rest with
      | none => exact absurd hm (splitAfter_none 45 rest hsp)
      | some r =>
        obtain ⟨cnt, h1, _, h3⟩ := splitAfter_some 45 rest r.1 r.2 hsp
        rw [h3, decodeString_binary_dash J ty cnt r.2 hty h1]
        by_cases hd : cnt = []
        · rw [if_pos hd]
        · rw [if_neg hd]
          cases hpu : ParseUint cnt with
          | error e => rfl
          | ok a =>
            exfalso
            obtain ⟨hne, hdig, -, -⟩ := (ParseUint_ok_iff cnt a).1 hpu
            exact hno ⟨cnt, r.2, h3, hne, hdig⟩
    · exact decodeString_binary_no_dash J ty rest hty hm
  · intro ds tail hne hdig hlt
    have hdash : 45 ∉ ds := by
      intro hmem
      have := hdig 45 hmem
      simp [isDigit] at this
    have hpu : ParseUint ds = .ok (decimalValue ds) :=
      (ParseUint_ok_iff ds _).2 ⟨hne, hdig, hlt, rfl⟩
    have heq : decodeString J (NewStringBufferString (ty :: (ds ++ 45 :: tail))) =
        decodeFromNamespace J
          { Type_ := ty, Nsp := [], Data := .nil, ID := none,
            Attachments := some (decimalValue ds) }
          (NewStringBufferString tail) := by
      rw [decodeString_binary_dash J ty ds tail hty hdash, if_neg hne, hpu]
    refine ⟨heq, ?_⟩
    intro p hp
    rw [heq] at hp
    exact (decodeFromNamespace_keeps J _ p _ hp).2

/-- C5 at the frames `5-["a"]` (no count: illegal attachments) and `512-["a"]`
(decoding goes on after the `'-'` with `Attachments` 12). -/
theorem decodeString_attachments_witness :
    (BinaryEvent = BinaryEvent ∨ BinaryEvent = BinaryAck) ∧
    decodeString goJsonDecode (NewStringBufferString (BinaryEvent :: ascii "-[\"a\"]")) =
      .error .illegalAttachments ∧
    decodeString goJsonDecode
        (NewStringBufferString (BinaryEvent :: (ascii "12" ++ 45 :: ascii "[\"a\"]"))) =
      decodeFromNamespace goJsonDecode
        { Type_ := BinaryEvent, Nsp := [], Data := .nil, ID := none,
          Attachments := some (decimalValue (ascii "12")) }
        (NewStringBufferString (ascii "[\"a\"]")) :=
  ⟨Or.inl rfl,
   (decodeString_attachments goJsonDecode BinaryEvent (Or.inl rfl)).1 (ascii "-[\"a\"]")
     (by
       rintro ⟨ds, tail, h, hne, hd⟩
       cases ds with
       | nil => exact hne rfl
       | cons c t =>
         have hc : c = 45 := by
           have h2 : ascii "-[\"a\"]" = 45 :: ascii "[\"a\"]" := rfl
           rw [h2] at h
           injection h with h3 h4
           exact h3.symm
         have h5 := hd c (List.mem_cons_self _ _)
         rw [hc] at h5
         exact absurd h5 (by decide)),
   ((decodeString_attachments goJsonDecode BinaryEvent (Or.inl rfl)).2 (ascii "12")
     (ascii "[\"a\"]") (by decide) (by decide) (by decide)).1⟩

/-- C6: for every non-empty text frame, with first byte `c`: `decodeString`
fails with the unknown-type error when `c` is not one of `'0'`..`'6'`; otherwise
the type step gives the packet the type `c`, and a packet that `decodeString`
returns has the kind the digit maps to, 0 CONNECT, 1 DISCONNECT, 2 EVENT, 3 ACK,
4 CONNECT_ERROR, 5 BINARY_EVENT, 6 BINARY_ACK.  `Valid` holds exactly for these
seven values; `String` gives these names for them and `UNKNOWN` for every other
value. -/
theorem decodeString_type (J : List Nat → Option Value) (c : Nat) (rest : List Nat) :
    (¬ (48 ≤ c ∧ c ≤ 54) →
      decodeString J (NewStringBufferString (c :: rest)) = .error (.unknownPacketType c)) ∧
    ((48 ≤ c ∧ c ≤ 54) → ∃ b, b.unread = rest ∧
      lookUpType (NewStringBufferString (c :: rest)) =
        .ok ({ Type_ := c, Nsp := [], Data := .nil, ID := none, Attachments := none }, b)) ∧
    (∀ p, decodeString J (NewStringBufferString (c :: rest)) = .ok p →
      p.Type_ = c ∧
      (c = 48 → p.Type_ = Connect) ∧ (c = 49 → p.Type_ = Disconnect) ∧
      (c = 50 → p.Type_ = Event) ∧ (c = 51 → p.Type_ = Ack) ∧
      (c = 52 → p.Type_ = ConnectError) ∧ (c = 53 → p.Type_ = BinaryEvent) ∧
      (c = 54 → p.Type_ = BinaryAck)) ∧
    (∀ t : PacketType, PacketType.Valid t = true ↔
      t = Connect ∨ t = Disconnect ∨ t = Event ∨ t = Ack ∨ t = ConnectError ∨
        t = BinaryEvent ∨ t = BinaryAck) ∧
    (PacketType.String Connect = "CONNECT" ∧ PacketType.String Disconnect = "DISCONNECT" ∧
      PacketType.String Event = "EVENT" ∧ PacketType.String Ack = "ACK" ∧
      PacketType.String ConnectError = "CONNECT_ERROR" ∧
      PacketType.String BinaryEvent = "BINARY_EVENT" ∧
      PacketType.String BinaryAck = "BINARY_ACK") ∧
    (∀ t : PacketType,
      ¬ (t = Connect ∨ t = Disconnect ∨ t = Event ∨ t = Ack ∨ t = ConnectError ∨
        t = BinaryEvent ∨ t = BinaryAck) → PacketType.String t = "UNKNOWN") := by
  refine ⟨?_, ?_, ?_, ?_, ?_, ?_⟩
  · intro hc
    apply decodeString_invalid_type
    simp only [PacketType.Valid, ge_iff_le, Bool.and_eq_false_imp, decide_eq_true_eq,
      decide_eq_false_iff_not]
    intro h1 h2
    exact hc ⟨h1, h2⟩
  · intro hc
    have hv : PacketType.Valid c = true := by
      simp [PacketType.Valid, hc.1, hc.2]
    exact ⟨_, rfl, by rw [lookUpType_cons _ c rest rfl, if_pos hv]⟩
  · intro p hp
    have ht := (accepted_type J p c rest hp).1
    refine ⟨ht, ?_, ?_, ?_, ?_, ?_, ?_, ?_⟩ <;> intro h <;> rw [ht, h] <;> rfl
  · intro t
    have key : ∀ n : Nat, (48 ≤ n ∧ n ≤ 54) ↔
        (n = 48 ∨ n = 49 ∨ n = 50 ∨ n = 51 ∨ n = 52 ∨ n = 53 ∨ n = 54) := by
      intro n
      omega
    simp only [PacketType.Valid, Connect, Disconnect, Event, Ack, ConnectError, BinaryEvent,
      BinaryAck, ge_iff_le, Bool.and_eq_true, decide_eq_true_eq]
    exact key t
  · exact ⟨rfl, rfl, rfl, rfl, rfl, rfl, rfl⟩
  · intro t ht
    simp only [not_or] at ht
    simp [PacketType.String, ht]

/-- C6 at the frames `7["a"]` (unknown type 55) and `2["a"]` (an EVENT). -/
theorem decodeString_type_witness :
    decodeString goJsonDecode (NewStringBufferString (55 :: ascii "[\"a\"]")) =
      .error (.unknownPacketType 55) ∧
    decodeString goJsonDecode (NewStringBufferString (50 :: ascii "[\"a\"]")) =
      .ok { Type_ := Event, Nsp := ascii "/", Data := .array [.string (ascii "a")],
            ID := none, Attachments := none } ∧
    ({ Type_ := Event, Nsp := ascii "/", Data := .array [.string (ascii "a")],
       ID := none, Attachments := none } : Packet).Type_ = Event ∧
    PacketType.String 55 = "UNKNOWN" :=
  ⟨(decodeString_type goJsonDecode 55 (ascii "[\"a\"]")).1 (by decide),
   rfl,
   ((decodeString_type goJsonDecode 50 (ascii "[\"a\"]")).2.2.1
      { Type_ := Event, Nsp := ascii "/", Data := .array [.string (ascii "a")],
        ID := none, Attachments := none } rfl).2.2.2.1 rfl,
   (decodeString_type goJsonDecode 50 (ascii "[\"a\"]")).2.2.2.2.2 55 (by decide)⟩

/-- C7: for every text frame that parses to a packet `p` and is given to `Add`
while the decoder is Idle, `Add` returns no error; it emits `p` exactly once
when the type of `p` is not binary, and when it is binary with `Attachments`
0; it emits nothing when the type is binary with `Attachments` above 0. -/
theorem Add_text_idle_emits {R : Type} (J : List Nat → Option Value)
    (ops : ReconstructorOps R) (d : decoder R) (f : Frame) (s : List Nat) (p : Packet)
    (hf : f.text? = some s) (hidle : d.Idle)
    (hp : decodeString J (NewStringBufferString s) = .ok p) :
    (Add J ops d f).err = none ∧
    ((p.Type_ ≠ BinaryEvent ∧ p.Type_ ≠ BinaryAck) → (Add J ops d f).emitted = [p]) ∧
    ((p.Type_ = BinaryEvent ∨ p.Type_ = BinaryAck) → p.Attachments = some 0 →
      (Add J ops d f).emitted = [p]) ∧
    ((p.Type_ = BinaryEvent ∨ p.Type_ = BinaryAck) → (∃ n, 0 < n ∧ p.Attachments = some n) →
      (Add J ops d f).emitted = []) := by
  rw [Add_text_idle J ops d f s hf hidle]
  unfold decodeAsString
  rw [hp]
  by_cases hb : p.Type_ = BinaryEvent ∨ p.Type_ = BinaryAck
  · by_cases h0 : p.Attachments = some 0
    · refine ⟨by simp [hb, h0], fun hn => absurd hb (by tauto), fun _ _ => by simp [hb, h0], ?_⟩
      rintro - ⟨n, hn, hn2⟩
      rw [h0] at hn2
      injection hn2 with hn2
      omega
    · exact ⟨by simp [hb, h0], fun hn => absurd hb (by tauto), fun _ h => absurd h h0,
        fun _ _ => by simp [hb, h0]⟩
  · exact ⟨by simp [hb], fun _ => by simp [hb], fun h => absurd h hb, fun h => absurd h hb⟩

/-- C7 on a new decoder: the frame `2["a"]` is emitted once, and so is `50-["a"]`
(binary, no attachments); `51-["a"]` (binary, one attachment) emits nothing; no
call returns an error. -/
theorem Add_text_idle_emits_witness :
    (Add goJsonDecode specOps NewDecoder (.string (ascii "2[\"a\"]"))).emitted =
      [{ Type_ := Event, Nsp := ascii "/", Data := .array [.string (ascii "a")],
         ID := none, Attachments := none }] ∧
    (Add goJsonDecode specOps NewDecoder (.string (ascii "50-[\"a\"]"))).emitted =
      [{ Type_ := BinaryEvent, Nsp := ascii "/", Data := .array [.string (ascii "a")],
         ID := none, Attachments := some 0 }] ∧
    (Add goJsonDecode specOps NewDecoder (.string (ascii "51-[\"a\"]"))).emitted = [] ∧
    (Add goJsonDecode specOps NewDecoder (.string (ascii "51-[\"a\"]"))).err = none :=
  ⟨(Add_text_idle_emits goJsonDecode specOps NewDecoder (.string (ascii "2[\"a\"]"))
      (ascii "2[\"a\"]")
      { Type_ := Event, Nsp := ascii "/", Data := .array [.string (ascii "a")],
        ID := none, Attachments := none } rfl rfl rfl).2.1 ⟨by decide, by decide⟩,
   (Add_text_idle_emits goJsonDecode specOps NewDecoder (.string (ascii "50-[\"a\"]"))
      (ascii "50-[\"a\"]")
      { Type_ := BinaryEvent, Nsp := ascii "/", Data := .array [.string (ascii "a")],
        ID := none, Attachments := some 0 } rfl rfl rfl).2.2.1 (Or.inl rfl) rfl,
   (Add_text_idle_emits goJsonDecode specOps NewDecoder (.string (ascii "51-[\"a\"]"))
      (ascii "51-[\"a\"]")
      { Type_ := BinaryEvent, Nsp := ascii "/", Data := .array [.string (ascii "a")],
        ID := none, Attachments := some 1 } rfl rfl rfl).2.2.2 (Or.inl rfl)
      ⟨1, by decide, rfl⟩,
   (Add_text_idle_emits goJsonDecode specOps NewDecoder (.string (ascii "51-[\"a\"]"))
      (ascii "51-[\"a\"]")
      { Type_ := BinaryEvent, Nsp := ascii "/", Data := .array [.string (ascii "a")],
        ID := none, Attachments := some 1 } rfl rfl rfl).1⟩

/-- C8, the code at `50-["a"]`: on a new decoder the frame is accepted and its
packet, binary with `Attachments` 0, is emitted, yet the reconstruction slot is
set, so the decoder is not Idle and the text frame `2["b"]` that follows is
rejected with "got plaintext data when reconstructing a packet", unparsed. -/
theorem Add_binary_no_attachments_not_idle {R : Type} (ops : ReconstructorOps R) :
    (Add goJsonDecode ops NewDecoder (.string (ascii "50-[\"a\"]"))).err = none ∧
    (Add goJsonDecode ops NewDecoder (.string (ascii "50-[\"a\"]"))).emitted =
      [{ Type_ := BinaryEvent, Nsp := ascii "/", Data := .array [.string (ascii "a")],
         ID := none, Attachments := some 0 }] ∧
    (Add goJsonDecode ops NewDecoder (.string (ascii "50-[\"a\"]"))).after.reconstructor =
      some (ops.NewBinaryReconstructor
        { Type_ := BinaryEvent, Nsp := ascii "/", Data := .array [.string (ascii "a")],
          ID := none, Attachments := some 0 }) ∧
    ¬ (Add goJsonDecode ops NewDecoder (.string (ascii "50-[\"a\"]"))).after.Idle ∧
    (Add goJsonDecode ops
        (Add goJsonDecode ops NewDecoder (.string (ascii "50-[\"a\"]"))).after
        (.string (ascii "2[\"b\"]"))).err = some .plaintextWhenReconstructing ∧
    (Add goJsonDecode ops
        (Add goJsonDecode ops NewDecoder (.string (ascii "50-[\"a\"]"))).after
        (.string (ascii "2[\"b\"]"))).emitted = [] :=
  ⟨rfl, rfl, rfl, fun h => Option.noConfusion h, rfl, rfl⟩

/-- C9: frames that do not fit the state of the decoder are rejected without
effect, whatever the JSON decoder and the reconstructor: a text frame given to
a decoder with a reconstruction pending returns the plaintext error, emits
nothing and leaves the decoder as it was; a binary frame given to an Idle
decoder returns the binary-data error, emits nothing and leaves it as it was. -/
theorem Add_rejects_misfit {R : Type} (J : List Nat → Option Value)
    (ops : ReconstructorOps R) (d : decoder R) :
    (∀ f s, f.text? = some s → ¬ d.Idle →
      Add J ops d f =
        { err := some .plaintextWhenReconstructing, after := d, emitted := [] }) ∧
    (∀ data, d.Idle →
      Add J ops d (.binary data) =
        { err := some .binaryWhenNotReconstructing, after := d, emitted := [] }) := by
  constructor
  · intro f s hf hpend
    have hsome : d.reconstructor.isSome = true := by
      cases hr : d.reconstructor with
      | none => exact absurd hr hpend
      | some r => rfl
    cases f with
    | string t => simp [Add, hsome]
    | reader t => simp [Add, hsome]
    | stringBuffer t => simp [Add, hsome]
    | binary t => simp [Frame.text?] at hf
    | other => simp [Frame.text?] at hf
  · intro data hidle
    have hnone : d.reconstructor = none := hidle
    simp [Add, hnone]

/-- C9 on a decoder waiting for the attachment of `51-["a"]`, given the text
frame `2["b"]`, and on a new decoder given a binary frame. -/
theorem Add_rejects_misfit_witness :
    Add goJsonDecode specOps
        (Add goJsonDecode specOps NewDecoder (.string (ascii "51-[\"a\"]"))).after
        (.string (ascii "2[\"b\"]")) =
      { err := some .plaintextWhenReconstructing,
        after := (Add goJsonDecode specOps NewDecoder (.string (ascii "51-[\"a\"]"))).after,
        emitted := [] } ∧
    Add goJsonDecode specOps NewDecoder (.binary [1, 2, 3]) =
      { err := some .binaryWhenNotReconstructing, after := NewDecoder, emitted := [] } :=
  ⟨(Add_rejects_misfit goJsonDecode specOps
      (Add goJsonDecode specOps NewDecoder (.string (ascii "51-[\"a\"]"))).after).1
      (.string (ascii "2[\"b\"]")) (ascii "2[\"b\"]") rfl (fun h => Option.noConfusion h),
   (Add_rejects_misfit goJsonDecode specOps NewDecoder).2 [1, 2, 3] rfl⟩

/-- C10, the code at `51-["a"]`, `Destroy`, `2["b"]`: on a decoder waiting for
the attachment of `51-["a"]`, `Destroy` emits nothing but leaves the
reconstruction slot set (to the reconstructor it has cleared), so the decoder
is not Idle and the text frame `2["b"]` that follows is rejected with "got
plaintext data when reconstructing a packet". -/
theorem Destroy_leaves_reconstructor {R : Type} (ops : ReconstructorOps R) :
    (Add goJsonDecode ops NewDecoder (.string (ascii "51-[\"a\"]"))).after.reconstructor =
      some (ops.NewBinaryReconstructor
        { Type_ := BinaryEvent, Nsp := ascii "/", Data := .array [.string (ascii "a")],
          ID := none, Attachments := some 1 }) ∧
    (Destroy ops
        (Add goJsonDecode ops NewDecoder (.string (ascii "51-[\"a\"]"))).after).emitted = [] ∧
    (Destroy ops
        (Add goJsonDecode ops NewDecoder (.string (ascii "51-[\"a\"]"))).after).after.reconstructor =
      some (ops.finishedReconstruction (ops.NewBinaryReconstructor
        { Type_ := BinaryEvent, Nsp := ascii "/", Data := .array [.string (ascii "a")],
          ID := none, Attachments := some 1 })) ∧
    ¬ (Destroy ops
        (Add goJsonDecode ops NewDecoder (.string (ascii "51-[\"a\"]"))).after).after.Idle ∧
    (Add goJsonDecode ops
        (Destroy ops
          (Add goJsonDecode ops NewDecoder (.string (ascii "51-[\"a\"]"))).after).after
        (.string (ascii "2[\"b\"]"))).err = some .plaintextWhenReconstructing ∧
    (Add goJsonDecode ops
        (Destroy ops
          (Add goJsonDecode ops NewDecoder (.string (ascii "51-[\"a\"]"))).after).after
        (.string (ascii "2[\"b\"]"))).emitted = [] :=
  ⟨rfl, rfl, rfl, fun h => Option.noConfusion h, rfl, rfl⟩

/-- C11, the code when the reconstruction fails: for every decoder with a
reconstruction pending and every binary frame on which `takeBinaryData` returns
an error, `Add` returns the error (as a decode error) and emits nothing, but
the reconstruction slot stays set, so the decoder is not Idle and every text
frame that follows is rejected with "got plaintext data when reconstructing a
packet". -/
theorem Add_reconstruction_error_not_idle {R : Type} (J : List Nat → Option Value)
    (ops : ReconstructorOps R) (d : decoder R) (r r2 : R) (data : List Nat) (e : Error)
    (hd : d.reconstructor = some r) (ht : ops.takeBinaryData r data = (r2, .error e)) :
    Add J ops d (.binary data) =
      { err := some (.decodeError e), after := { reconstructor := some r2 }, emitted := [] } ∧
    ¬ (Add J ops d (.binary data)).after.Idle ∧
    ∀ s, Add J ops (Add J ops d (.binary data)).after (.string s) =
      { err := some .plaintextWhenReconstructing, after := { reconstructor := some r2 },
        emitted := [] } := by
  have h1 : Add J ops d (.binary data) =
      { err := some (.decodeError e), after := { reconstructor := some r2 }, emitted := [] } := by
    simp [Add, hd, ht]
  rw [h1]
  refine ⟨rfl, fun h => Option.noConfusion h, fun s => ?_⟩
  simp [Add]

/-- C11 on the decoder that has parsed
`51-["a",{"isPlaceholder":true,"index":1}]`: the binary frame that follows
cannot fill index 1, `Add` returns the decode error, and the text frame `2["b"]`
after it is rejected. -/
theorem Add_reconstruction_error_not_idle_witness :
    (Add goJsonDecode specOps
      (Add goJsonDecode specOps
        (Add goJsonDecode specOps NewDecoder
          (.string (ascii "51-[\"a\",\x7b\"isPlaceholder\":true,\"index\":1\x7d]"))).after
        (.binary [1, 2, 3])).after
      (.string (ascii "2[\"b\"]"))).err = some .plaintextWhenReconstructing ∧
    (Add goJsonDecode specOps
      (Add goJsonDecode specOps NewDecoder
        (.string (ascii "51-[\"a\",\x7b\"isPlaceholder\":true,\"index\":1\x7d]"))).after
      (.binary [1, 2, 3])).err =
      some (.decodeError (.reconstruction "illegal attachments")) :=
  ⟨congrArg Outcome.err
     ((Add_reconstruction_error_not_idle goJsonDecode specOps
        (Add goJsonDecode specOps NewDecoder
          (.string (ascii "51-[\"a\",\x7b\"isPlaceholder\":true,\"index\":1\x7d]"))).after
        _ _ [1, 2, 3] (.reconstruction "illegal attachments") rfl rfl).2.2 (ascii "2[\"b\"]")),
   rfl⟩

/-- C12: for every decoder with a reconstruction pending and every binary frame
given to `Add`: when `takeBinaryData` returns a completed packet `p`, `Add`
returns no error, emits `p` exactly once and leaves the decoder Idle; when it
returns neither a packet nor an error, `Add` returns no error, emits nothing
and the slot still holds the same reconstructor, in the state the call left it
in. -/
theorem Add_binary_pending {R : Type} (J : List Nat → Option Value)
    (ops : ReconstructorOps R) (d : decoder R) (r : R) (data : List Nat)
    (hd : d.reconstructor = some r) :
    (∀ r2 p, ops.takeBinaryData r data = (r2, .ok (some p)) →
      Add J ops d (.binary data) =
        { err := none, after := { reconstructor := none }, emitted := [p] } ∧
      (Add J ops d (.binary data)).after.Idle) ∧
    (∀ r2, ops.takeBinaryData r data = (r2, .ok none) →
      Add J ops d (.binary data) =
        { err := none, after := { reconstructor := some r2 }, emitted := [] } ∧
      ¬ (Add J ops d (.binary data)).after.Idle) := by
  constructor
  · intro r2 p ht
    have h1 : Add J ops d (.binary data) =
        { err := none, after := { reconstructor := none }, emitted := [p] } := by
      simp [Add, hd, ht]
    rw [h1]
    exact ⟨rfl, rfl⟩
  · intro r2 ht
    have h1 : Add J ops d (.binary data) =
        { err := none, after := { reconstructor := some r2 }, emitted := [] } := by
      simp [Add, hd, ht]
    rw [h1]
    exact ⟨rfl, fun h => Option.noConfusion h⟩

/-- C12 on the decoder that has parsed
`52-["a",{"isPlaceholder":true,"index":0},{"isPlaceholder":true,"index":1}]`:
the first binary frame emits nothing and leaves the reconstruction pending, the
second one completes the packet, which is emitted once, and the decoder is
Idle. -/
theorem Add_binary_pending_witness :
    (Add goJsonDecode specOps
      (Add goJsonDecode specOps NewDecoder (.string (ascii
        "52-[\"a\",\x7b\"isPlaceholder\":true,\"index\":0\x7d,\x7b\"isPlaceholder\":true,\"index\":1\x7d]"))).after
      (.binary [1])).emitted = [] ∧
    (Add goJsonDecode specOps
      (Add goJsonDecode specOps
        (Add goJsonDecode specOps NewDecoder (.string (ascii
          "52-[\"a\",\x7b\"isPlaceholder\":true,\"index\":0\x7d,\x7b\"isPlaceholder\":true,\"index\":1\x7d]"))).after
        (.binary [1])).after
      (.binary [2])) =
      { err := none, after := { reconstructor := none },
        emitted := [{ Type_ := BinaryEvent, Nsp := ascii "/",
                      Data := .array [.string (ascii "a"), .binary [1], .binary [2]],
                      ID := none, Attachments := some 2 }] } :=
  ⟨congrArg Outcome.emitted
     ((Add_binary_pending goJsonDecode specOps
        (Add goJsonDecode specOps NewDecoder (.string (ascii
          "52-[\"a\",\x7b\"isPlaceholder\":true,\"index\":0\x7d,\x7b\"isPlaceholder\":true,\"index\":1\x7d]"))).after
        _ [1] rfl).2 _ rfl).1,
   ((Add_binary_pending goJsonDecode specOps
      (Add goJsonDecode specOps
        (Add goJsonDecode specOps NewDecoder (.string (ascii
          "52-[\"a\",\x7b\"isPlaceholder\":true,\"index\":0\x7d,\x7b\"isPlaceholder\":true,\"index\":1\x7d]"))).after
        (.binary [1])).after
      _ [2] rfl).1 _ _ rfl).1⟩

/-- C13: for every text frame that `decodeString` accepts, the `Attachments`
field of the packet is present if and only if its type is BINARY_EVENT or
BINARY_ACK. -/
theorem decodeString_attachments_present (J : List Nat → Option Value) (s : List Nat)
    (p : Packet) (h : decodeString J (NewStringBufferString s) = .ok p) :
    p.Attachments ≠ none ↔ (p.Type_ = BinaryEvent ∨ p.Type_ = BinaryAck) := by
  obtain ⟨pre, text, hs, hp⟩ := accepted_shape J s p h
  subst hs
  obtain ⟨att, hn, hnone, hsome⟩ := accepted_from_namespace J p p.Type_ pre text hp h
  have hk : p.Attachments = att := (decodeFromNamespace_keeps J _ p _ hn).2
  rw [hk]
  rcases hp with ⟨h1, h2, hpre⟩ | ⟨hb, count, hpre, -⟩
  · rw [hnone hpre]
    constructor
    · intro hne; exact absurd rfl hne
    · rintro (hb | hb)
      · exact absurd hb h1
      · exact absurd hb h2
  · have hs2 := (hsome count hpre).2
    constructor
    · intro _; exact hb
    · intro _ hatt
      rw [hatt] at hs2
      cases hs2

/-- C13 at the frames `2["a"]` (an EVENT, no `Attachments`) and `51-["a"]` (a
BINARY_EVENT, `Attachments` 1). -/
theorem decodeString_attachments_present_witness :
    decodeString goJsonDecode (NewStringBufferString (ascii "2[\"a\"]")) =
      .ok { Type_ := Event, Nsp := ascii "/", Data := .array [.string (ascii "a")],
            ID := none, Attachments := none } ∧
    ¬ (Event = BinaryEvent ∨ Event = BinaryAck) ∧
    decodeString goJsonDecode (NewStringBufferString (ascii "51-[\"a\"]")) =
      .ok { Type_ := BinaryEvent, Nsp := ascii "/", Data := .array [.string (ascii "a")],
            ID := none, Attachments := some 1 } ∧
    (BinaryEvent = BinaryEvent ∨ BinaryEvent = BinaryAck) :=
  ⟨rfl,
   fun hb => (decodeString_attachments_present goJsonDecode (ascii "2[\"a\"]")
      { Type_ := Event, Nsp := ascii "/", Data := .array [.string (ascii "a")],
        ID := none, Attachments := none } rfl).2 hb rfl,
   rfl,
   (decodeString_attachments_present goJsonDecode (ascii "51-[\"a\"]")
      { Type_ := BinaryEvent, Nsp := ascii "/", Data := .array [.string (ascii "a")],
        ID := none, Attachments := some 1 } rfl).1 (fun hn => Option.noConfusion hn)⟩

/-- C15, refuted as stated: `isPayloadValid(CONNECT, nil)` is false, although
the payload is absent. -/
theorem isPayloadValid_connect_nil :
    ¬ (isPayloadValid Connect .nil = true ↔
        ((∃ fields, Value.nil = .object fields) ∨ Value.nil = Value.nil)) := by
  intro h
  have h2 : isPayloadValid Connect .nil = true := h.2 (Or.inr rfl)
  exact absurd h2 (by decide)

/-- C15, amended: for every payload value `p`, `isPayloadValid(CONNECT, p)`
holds if and only if `p` is an object; it does not hold for an absent
payload. -/
theorem isPayloadValid_connect (p : Value) :
    (isPayloadValid Connect p = true ↔ ∃ fields, p = .object fields) ∧
    isPayloadValid Connect .nil = false := by
  refine ⟨?_, rfl⟩
  unfold isPayloadValid
  rw [if_pos rfl]
  cases p <;> simp

/-- C16: for every payload value `p`, `isPayloadValid(DISCONNECT, p)` holds iff
`p` is absent (nil); `isPayloadValid(ACK, p)` and `isPayloadValid(BINARY_ACK, p)`
hold iff `p` is an array, empty or not; `isPayloadValid(CONNECT_ERROR, p)` holds
iff `p` is an object or a string; and `isPayloadValid(t, p)` is false for every
type value `t` outside the seven kinds. -/
theorem isPayloadValid_others (p : Value) :
    (isPayloadValid Disconnect p = true ↔ p = .nil) ∧
    (isPayloadValid Ack p = true ↔ ∃ elems, p = .array elems) ∧
    (isPayloadValid BinaryAck p = true ↔ ∃ elems, p = .array elems) ∧
    (isPayloadValid ConnectError p = true ↔
      ((∃ fields, p = .object fields) ∨ ∃ str, p = .string str)) ∧
    (∀ t : PacketType,
      ¬ (t = Connect ∨ t = Disconnect ∨ t = Event ∨ t = Ack ∨ t = ConnectError ∨
        t = BinaryEvent ∨ t = BinaryAck) → isPayloadValid t p = false) := by
  refine ⟨?_, ?_, ?_, ?_, ?_⟩
  · unfold isPayloadValid
    rw [if_neg (by decide), if_pos rfl]
    cases p <;> simp
  · unfold isPayloadValid
    rw [if_neg (by decide), if_neg (by decide), if_neg (by decide), if_neg (by decide),
      if_pos (Or.inl rfl)]
    cases p <;> simp
  · unfold isPayloadValid
    rw [if_neg (by decide), if_neg (by decide), if_neg (by decide), if_neg (by decide),
      if_pos (Or.inr rfl)]
    cases p <;> simp
  · unfold isPayloadValid
    rw [if_neg (by decide), if_neg (by decide), if_pos rfl]
    cases p <;> simp
  · intro t ht
    simp only [not_or] at ht
    unfold isPayloadValid
    rw [if_neg ht.1, if_neg ht.2.1, if_neg ht.2.2.2.2.1,
      if_neg (by tauto), if_neg (by tauto)]

/-- C20: a rejected text frame has no effect: for every text frame on which
`decodeString` returns an error, `Add` on an Idle decoder returns that error,
emits nothing and leaves the decoder as it was, Idle, with no reconstruction
state. -/
theorem Add_rejected_text_no_effect {R : Type} (J : List Nat → Option Value)
    (ops : ReconstructorOps R) (d : decoder R) (f : Frame) (s : List Nat) (e : Error)
    (hf : f.text? = some s) (hidle : d.Idle)
    (he : decodeString J (NewStringBufferString s) = .error e) :
    Add J ops d f = { err := some e, after := d, emitted := [] } ∧
    (Add J ops d f).after.Idle ∧ (Add J ops d f).after.reconstructor = none := by
  have h1 : Add J ops d f = { err := some e, after := d, emitted := [] } := by
    rw [Add_text_idle J ops d f s hf hidle]
    unfold decodeAsString
    rw [he]
  rw [h1]
  exact ⟨rfl, hidle, hidle⟩

/-- C20 on a new decoder, at one frame for each error of `decodeString`: `9`
(unknown type), `5["a"]` (illegal attachments), `299999999999999999999["a"]`
(an id that does not fit in 64 bits) and `2["connect"]` (invalid payload). -/
theorem Add_rejected_text_no_effect_witness :
    Add goJsonDecode specOps NewDecoder (.string (ascii "9")) =
      { err := some (.unknownPacketType 57), after := NewDecoder, emitted := [] } ∧
    Add goJsonDecode specOps NewDecoder (.reader (ascii "5[\"a\"]")) =
      { err := some .illegalAttachments, after := NewDecoder, emitted := [] } ∧
    Add goJsonDecode specOps NewDecoder
        (.stringBuffer (ascii "299999999999999999999[\"a\"]")) =
      { err := some (.numRange (ascii "99999999999999999999")), after := NewDecoder,
        emitted := [] } ∧
    Add goJsonDecode specOps NewDecoder (.string (ascii "2[\"connect\"]")) =
      { err := some .invalidPayload, after := NewDecoder, emitted := [] } :=
  ⟨(Add_rejected_text_no_effect goJsonDecode specOps NewDecoder (.string (ascii "9"))
      (ascii "9") (.unknownPacketType 57) rfl rfl rfl).1,
   (Add_rejected_text_no_effect goJsonDecode specOps NewDecoder
      (.reader (ascii "5[\"a\"]")) (ascii "5[\"a\"]") .illegalAttachments rfl rfl rfl).1,
   (Add_rejected_text_no_effect goJsonDecode specOps NewDecoder
      (.stringBuffer (ascii "299999999999999999999[\"a\"]"))
      (ascii "299999999999999999999[\"a\"]")
      (.numRange (ascii "99999999999999999999")) rfl rfl rfl).1,
   (Add_rejected_text_no_effect goJsonDecode specOps NewDecoder
      (.string (ascii "2[\"connect\"]")) (ascii "2[\"connect\"]") .invalidPayload
      rfl rfl rfl).1⟩

/-! ## Lemmas: the JSON encoder and decoder -/

theorem hexVal_hexDigit (n : Nat) (h : n < 16) : hexVal (hexDigit n) = some n := by
  unfold hexDigit hexVal
  by_cases h10 : n < 10
  · rw [if_pos h10, if_pos (by omega)]
    simp
  · rw [if_neg h10, if_neg (by omega), if_pos (by omega)]
    simp

theorem utf8Len_le_length (s : List Nat) : utf8Len s ≤ s.length := by
  rcases s with _ | ⟨b0, _ | ⟨b1, _ | ⟨b2, _ | ⟨b3, r⟩⟩⟩⟩ <;>
    simp only [utf8Len, List.length_cons, List.length_nil] <;>
    first
      | omega
      | (split_ifs <;> omega)

theorem utf8Len_take_append (s t : List Nat) (h : utf8Len s ≠ 0) :
    utf8Len (s.take (utf8Len s) ++ t) = utf8Len s := by
  rcases s with _ | ⟨b0, _ | ⟨b1, _ | ⟨b2, _ | ⟨b3, r⟩⟩⟩⟩
  · simp [utf8Len] at h
  · simp only [utf8Len] at h ⊢
    split_ifs at h ⊢ with h1
    · simp [utf8Len, h1]
    · simp at h
  · simp only [utf8Len] at h ⊢
    split_ifs at h ⊢ with h1 h2 h3
    · simp [utf8Len, h1]
    · simp [utf8Len, h1, h2, h3]
    · simp at h
    · simp at h
  · simp only [utf8Len] at h ⊢
    split_ifs at h ⊢ with h1 h2 h3 h4 h5
    · simp [utf8Len, h1]
    · simp [utf8Len, h1, h2, h3]
    · simp at h
    · simp [utf8Len, h1, h2, h4, h5]
    · simp at h
    · simp at h
  · simp only [utf8Len] at h ⊢
    split_ifs at h ⊢ with h1 h2 h3 h4 h5 h6
    · simp [utf8Len, h1]
    · simp [utf8Len, h1, h2, h3]
    · simp at h
    · simp [utf8Len, h1, h2, h4, h5]
    · simp at h
    · simp [utf8Len, h1, h2, h4, h6]
    · simp at h


theorem utf8Len_ascii (c : Nat) (rest : List Nat) (h : c < 128) : utf8Len (c :: rest) = 1 := by
  simp [utf8Len, h]

theorem hex4_two_digits (c : Nat) (h : c < 128) :
    hex4 48 48 (hexDigit (c / 16)) (hexDigit (c % 16)) = some c := by
  have h0 : hexVal 48 = some 0 := by decide
  unfold hex4
  rw [h0, hexVal_hexDigit _ (by omega), hexVal_hexDigit _ (Nat.mod_lt _ (by norm_num))]
  simp only [Option.some.injEq]
  omega

theorem encodeChar_snd (c : Nat) (rest : List Nat) (hv : utf8Len (c :: rest) ≠ 0) :
    (encodeChar (c :: rest)).2 = (c :: rest).drop (utf8Len (c :: rest)) := by
  by_cases h : c < 128
  · rw [utf8Len_ascii c rest h]
    simp only [encodeChar, h, if_true]
    split_ifs <;> rfl
  · simp only [encodeChar, h, if_false, hv]
    split_ifs <;> rfl

theorem encodeChar_fst_length (c : Nat) (rest : List Nat) (hv : utf8Len (c :: rest) ≠ 0) :
    1 ≤ (encodeChar (c :: rest)).1.length := by
  by_cases h : c < 128
  · simp only [encodeChar, h, if_true]
    split_ifs <;> simp
  · simp only [encodeChar, h, if_false, hv]
    split_ifs
    · simp
    · simp
    · have := utf8Len_le_length (c :: rest)
      simp only [List.length_take]
      omega

theorem parseString_encodeChar (c : Nat) (rest : List Nat) (hv : utf8Len (c :: rest) ≠ 0)
    (fuel : Nat) (acc tail : List Nat) :
    parseString (fuel + 1) acc ((encodeChar (c :: rest)).1 ++ tail) =
      parseString fuel (acc ++ (c :: rest).take (utf8Len (c :: rest))) tail := by
  by_cases h : c < 128
  · rw [utf8Len_ascii c rest h]
    simp only [encodeChar, h, if_true, List.take_succ_cons, List.take_zero]
    by_cases h1 : c = 34 ∨ c = 92
    · rw [if_pos h1]
      rcases h1 with h1 | h1 <;> subst h1 <;> simp [parseString]
    · rw [if_neg h1]
      by_cases h2 : c = 8
      · subst h2; simp [parseString]
      rw [if_neg h2]
      by_cases h3 : c = 12
      · subst h3; simp [parseString]
      rw [if_neg h3]
      by_cases h4 : c = 10
      · subst h4; simp [parseString]
      rw [if_neg h4]
      by_cases h5 : c = 13
      · subst h5; simp [parseString]
      rw [if_neg h5]
      by_cases h6 : c = 9
      · subst h6; simp [parseString]
      rw [if_neg h6]
      by_cases h7 : c < 32 ∨ c = 60 ∨ c = 62 ∨ c = 38
      · rw [if_pos h7]
        have hu : utf8Encode c = [c] := by simp [utf8Encode, h]
        have hs : ¬ (55296 ≤ c ∧ c < 57344) := by omega
        simp [parseString, hex4_two_digits c h, hs, hu]
      · rw [if_neg h7]
        push_neg at h1 h7
        have e1 : ¬ c < 32 := by omega
        simp [parseString, h1.1, h1.2, e1, h]
  · have hn := utf8Len_le_length (c :: rest)
    simp only [encodeChar, h, if_false, hv]
    by_cases h1 : List.take (utf8Len (c :: rest)) (c :: rest) = [226, 128, 168]
    · rw [if_pos h1, h1]
      have e1 : hex4 50 48 50 56 = some 8232 := by decide
      have e2 : utf8Encode 8232 = [226, 128, 168] := by decide
      simp [parseString, e1, e2]
    · rw [if_neg h1]
      by_cases h2 : List.take (utf8Len (c :: rest)) (c :: rest) = [226, 128, 169]
      · rw [if_pos h2, h2]
        have e1 : hex4 50 48 50 57 = some 8233 := by decide
        have e2 : utf8Encode 8233 = [226, 128, 169] := by decide
        simp [parseString, e1, e2]
      · rw [if_neg h2]
        have hlen := utf8Len_take_append (c :: rest) tail hv
        obtain ⟨k, hk⟩ : ∃ k, utf8Len (c :: rest) = k + 1 := ⟨utf8Len (c :: rest) - 1, by omega⟩
        have htake : List.take (utf8Len (c :: rest)) (c :: rest) ++ tail =
            c :: (List.take k rest ++ tail) := by
          rw [hk]; simp
        rw [htake] at hlen ⊢
        have c34 : c ≠ 34 := by omega
        have c32 : ¬ c < 32 := by omega
        have c92 : c ≠ 92 := by omega
        have hv2 : utf8Len (c :: (List.take k rest ++ tail)) ≠ 0 := by rw [hlen]; exact hv
        simp only [parseString, c34, c32, c92, h, hv2, if_false]
        rw [hlen, ← htake]
        have hl : (List.take (utf8Len (c :: rest)) (c :: rest)).length = utf8Len (c :: rest) := by
          simp only [List.length_take]
          omega
        rw [List.take_left' hl, List.drop_left' hl]

/-- Decoding the body that `encodeStringBody` writes for valid UTF-8 gives the
string back. -/
theorem parseString_encodeStringBody (n : Nat) :
    ∀ s : List Nat, validUtf8Aux n s = true → ∀ m, s.length ≤ m →
      ∀ fuel acc tail, (encodeStringBody m s).length < fuel →
        parseString fuel acc (encodeStringBody m s ++ 34 :: tail) = some (acc ++ s, tail) := by
  induction n with
  | zero =>
    intro s hv m hm fuel acc tail hf
    cases s with
    | nil =>
      obtain ⟨f, rfl⟩ : ∃ f, fuel = f + 1 := ⟨fuel - 1, by omega⟩
      cases m <;> simp [encodeStringBody, parseString]
    | cons c rest => simp [validUtf8Aux] at hv
  | succ n ih =>
    intro s hv m hm fuel acc tail hf
    cases s with
    | nil =>
      obtain ⟨f, rfl⟩ : ∃ f, fuel = f + 1 := ⟨fuel - 1, by omega⟩
      cases m <;> simp [encodeStringBody, parseString]
    | cons c rest =>
      simp only [validUtf8Aux, Bool.and_eq_true, decide_eq_true_eq] at hv
      obtain ⟨hv1, hv2⟩ := hv
      obtain ⟨m2, rfl⟩ : ∃ m2, m = m2 + 1 := ⟨m - 1, by simp at hm; omega⟩
      have h1 := encodeChar_fst_length c rest hv1
      have hsnd := encodeChar_snd c rest hv1
      simp only [encodeStringBody, List.length_append] at hf ⊢
      obtain ⟨f, rfl⟩ : ∃ f, fuel = f + 1 := ⟨fuel - 1, by omega⟩
      rw [List.append_assoc, parseString_encodeChar c rest hv1, hsnd]
      have hlen : (List.drop (utf8Len (c :: rest)) (c :: rest)).length ≤ m2 := by
        simp only [List.length_drop, List.length_cons] at hm ⊢
        omega
      rw [ih _ hv2 m2 hlen f _ tail (by rw [hsnd] at hf; omega)]
      rw [List.append_assoc, List.take_append_drop]

/-- The bound of `numberInRange` is `2 ^ 1024 - 2 ^ 970`. -/
theorem float64Limit_eq : float64Limit = 2 ^ 1024 - 2 ^ 970 := by
  norm_num [float64Limit]

theorem spanDigits_append (s t : List Nat) (ht : numberEnds t) :
    spanDigits (s ++ t) = ((spanDigits s).1, (spanDigits s).2 ++ t) := by
  induction s with
  | nil =>
    rcases ht with h | ⟨c, r, h, hc, -⟩
    · subst h; simp [spanDigits]
    · subst h; simp [spanDigits, hc]
  | cons c s ih =>
    by_cases hc : 48 ≤ c ∧ c ≤ 57
    · simp [spanDigits, hc, ih]
    · simp [spanDigits, hc]

theorem numberInt_append (s t a r : List Nat) (ht : numberEnds t)
    (h : numberInt s = some (a, r)) : numberInt (s ++ t) = some (a, r ++ t) := by
  cases s with
  | nil => simp [numberInt] at h
  | cons c s =>
    simp only [numberInt, List.cons_append] at h ⊢
    by_cases h0 : c = 48
    · simp only [h0, if_true, Option.some.injEq, Prod.mk.injEq] at h ⊢
      exact ⟨h.1, by rw [h.2]⟩
    · simp only [h0, if_false] at h ⊢
      by_cases h1 : 49 ≤ c ∧ c ≤ 57
      · simp only [h1, and_self, if_true, Option.some.injEq, Prod.mk.injEq] at h ⊢
        rw [spanDigits_append s t ht]
        exact ⟨h.1, by rw [h.2]⟩
      · simp [h1] at h

theorem numberFrac_append (s t a r : List Nat) (ht : numberEnds t)
    (h : numberFrac s = some (a, r)) : numberFrac (s ++ t) = some (a, r ++ t) := by
  cases s with
  | nil =>
    simp only [numberFrac, Option.some.injEq, Prod.mk.injEq] at h
    rw [← h.1, ← h.2]
    rcases ht with h2 | ⟨c, r2, h2, -, hc, -⟩
    · subst h2; simp [numberFrac]
    · subst h2; simp [numberFrac, hc]
  | cons c s =>
    simp only [numberFrac, List.cons_append] at h ⊢
    by_cases h0 : c = 46
    · simp only [h0, if_true] at h ⊢
      rw [spanDigits_append s t ht]
      by_cases h1 : (spanDigits s).1 = []
      · simp [h1] at h
      · simp only [h1, if_false, Option.some.injEq, Prod.mk.injEq] at h ⊢
        exact ⟨h.1, by rw [h.2]⟩
    · simp only [h0, if_false, Option.some.injEq, Prod.mk.injEq] at h ⊢
      exact ⟨h.1, by rw [← h.2]; rfl⟩

theorem numberExp_append (s t a r : List Nat) (ht : numberEnds t)
    (h : numberExp s = some (a, r)) : numberExp (s ++ t) = some (a, r ++ t) := by
  cases s with
  | nil =>
    simp only [numberExp, Option.some.injEq, Prod.mk.injEq] at h
    rw [← h.1, ← h.2]
    rcases ht with h2 | ⟨c, r2, h2, -, -, hc1, hc2⟩
    · subst h2; simp [numberExp]
    · subst h2; simp [numberExp, hc1, hc2]
  | cons e s =>
    simp only [numberExp, List.cons_append] at h ⊢
    by_cases h0 : e = 101 ∨ e = 69
    · simp only [h0, if_true] at h ⊢
      cases s with
      | nil => simp at h
      | cons g s2 =>
        simp only [List.cons_append] at h ⊢
        by_cases hg : g = 43 ∨ g = 45
        · simp only [hg, if_true] at h ⊢
          rw [spanDigits_append s2 t ht]
          by_cases h1 : (spanDigits s2).1 = []
          · simp [h1] at h
          · simp only [h1, if_false, Option.some.injEq, Prod.mk.injEq] at h ⊢
            exact ⟨h.1, by rw [h.2]⟩
        · simp only [hg, if_false] at h ⊢
          have hsp := spanDigits_append (g :: s2) t ht
          rw [List.cons_append] at hsp
          rw [hsp]
          by_cases h1 : (spanDigits (g :: s2)).1 = []
          · simp [h1] at h
          · simp only [h1, if_false, Option.some.injEq, Prod.mk.injEq] at h ⊢
            exact ⟨h.1, by rw [h.2]⟩
    · simp only [h0, if_false, Option.some.injEq, Prod.mk.injEq] at h ⊢
      exact ⟨h.1, by rw [← h.2]; rfl⟩

theorem numberUnsigned_append (s t a r : List Nat) (ht : numberEnds t)
    (h : numberUnsigned s = some (a, r)) : numberUnsigned (s ++ t) = some (a, r ++ t) := by
  unfold numberUnsigned at h ⊢
  cases h1 : numberInt s with
  | none => simp [h1] at h
  | some p1 =>
    obtain ⟨ip, s1⟩ := p1
    simp only [h1] at h
    rw [numberInt_append s t ip s1 ht h1]
    simp only []
    cases h2 : numberFrac s1 with
    | none => simp [h2] at h
    | some p2 =>
      obtain ⟨fp, s2⟩ := p2
      simp only [h2] at h
      rw [numberFrac_append s1 t fp s2 ht h2]
      simp only []
      cases h3 : numberExp s2 with
      | none => simp [h3] at h
      | some p3 =>
        obtain ⟨ep, s3⟩ := p3
        simp only [h3, Option.some.injEq, Prod.mk.injEq] at h
        rw [numberExp_append s2 t ep s3 ht h3]
        simp only [Option.some.injEq, Prod.mk.injEq]
        exact ⟨h.1, by rw [h.2]⟩

/-- A number literal is read the same way in front of a text that does not go
on with it. -/
theorem parseNumber_append (s t a r : List Nat) (ht : numberEnds t)
    (h : parseNumber s = some (a, r)) : parseNumber (s ++ t) = some (a, r ++ t) := by
  cases s with
  | nil => simp [parseNumber] at h
  | cons c s =>
    simp only [parseNumber, List.cons_append] at h ⊢
    by_cases hc : c = 45
    · simp only [hc, if_true] at h ⊢
      cases h1 : numberUnsigned s with
      | none => simp [h1] at h
      | some p =>
        obtain ⟨lit, s1⟩ := p
        simp only [h1, Option.some.injEq, Prod.mk.injEq] at h
        rw [numberUnsigned_append s t lit s1 ht h1]
        simp only [Option.some.injEq, Prod.mk.injEq]
        exact ⟨h.1, by rw [h.2]⟩
    · simp only [hc, if_false] at h ⊢
      have := numberUnsigned_append (c :: s) t a r ht h
      rw [List.cons_append] at this
      exact this

/-- A number literal starts with `-` or a digit. -/
theorem parseNumber_head (s a r : List Nat) (h : parseNumber s = some (a, r)) :
    ∃ c rest, s = c :: rest ∧ (c = 45 ∨ (48 ≤ c ∧ c ≤ 57)) := by
  cases s with
  | nil => simp [parseNumber] at h
  | cons c s =>
    refine ⟨c, s, rfl, ?_⟩
    by_cases hc : c = 45
    · exact Or.inl hc
    · right
      simp only [parseNumber, hc, if_false, numberUnsigned, numberInt] at h
      by_cases h0 : c = 48
      · omega
      · simp only [h0, if_false] at h
        by_cases h1 : 49 ≤ c ∧ c ≤ 57
        · omega
        · simp [h1] at h

theorem skipSpace_cons (c : Nat) (r : List Nat) (h : ¬ (c = 32 ∨ c = 9 ∨ c = 10 ∨ c = 13)) :
    skipSpace (c :: r) = c :: r := by
  simp only [skipSpace, h, if_false]

theorem valueEnds.numberEnds {t : List Nat} (h : valueEnds t) : numberEnds t := by
  rcases h with h | ⟨r, h | h | h⟩
  · exact Or.inl h
  · exact Or.inr ⟨44, r, h, by omega, by omega, by omega, by omega⟩
  · exact Or.inr ⟨93, r, h, by omega, by omega, by omega, by omega⟩
  · exact Or.inr ⟨125, r, h, by omega, by omega, by omega, by omega⟩

theorem goJsonEncode_head (d : Nat) (v : Value) (h : jsonClean d v = true) :
    ∃ c r, goJsonEncode v = c :: r ∧ valueStart c := by
  cases v with
  | nil => exact ⟨110, _, by simp only [goJsonEncode]; rfl, by simp [valueStart]⟩
  | bool b =>
    cases b
    · exact ⟨102, _, by simp only [goJsonEncode]; rfl, by simp [valueStart]⟩
    · exact ⟨116, _, by simp only [goJsonEncode]; rfl, by simp [valueStart]⟩
  | number lit =>
    simp only [jsonClean, Bool.and_eq_true, decide_eq_true_eq] at h
    obtain ⟨c, rest, h1, h2⟩ := parseNumber_head lit lit [] h.1
    refine ⟨c, rest, by simp [goJsonEncode, h1], ?_⟩
    unfold valueStart
    omega
  | string s => exact ⟨34, _, by simp only [goJsonEncode, encodeString]; rfl, by simp [valueStart]⟩
  | array elems => exact ⟨91, _, by simp only [goJsonEncode]; rfl, by simp [valueStart]⟩
  | object fields => exact ⟨123, _, by simp only [goJsonEncode]; rfl, by simp [valueStart]⟩
  | binary b => simp [jsonClean] at h

theorem keyLt_irrefl (k : List Nat) : keyLt k k = false := by
  induction k with
  | nil => rfl
  | cons a k ih => simp [keyLt, ih]

theorem setField_fresh (k : List Nat) (v : Value) (acc : List (List Nat × Value))
    (h : ∀ x ∈ acc, x.1 ≠ k) : setField k v acc = acc ++ [(k, v)] := by
  induction acc with
  | nil => rfl
  | cons x acc ih =>
    obtain ⟨k1, v1⟩ := x
    have h1 : k1 ≠ k := h (k1, v1) (List.mem_cons_self _ _)
    simp only [setField, h1, if_false, List.cons_append]
    rw [ih (fun y hy => h y (List.mem_cons_of_mem _ hy))]

theorem sortByKey_of_increasing {α : Type} (l : List (List Nat × α))
    (h : keysIncreasing l = true) : sortByKey l = l := by
  induction l with
  | nil => rfl
  | cons x rest ih =>
    simp only [keysIncreasing, Bool.and_eq_true] at h
    simp only [sortByKey, ih h.2]
    cases rest with
    | nil => rfl
    | cons y r =>
      have := h.1
      simp only [List.all_cons, Bool.and_eq_true] at this
      simp [insertByKey, this.1]

theorem all_goJsonEncodeFields (k : List Nat) (fields : List (List Nat × Value)) :
    (goJsonEncodeFields fields).all (fun y => keyLt k y.1) =
      fields.all (fun y => keyLt k y.1) := by
  induction fields with
  | nil => simp [goJsonEncodeFields]
  | cons x rest ih =>
    obtain ⟨k1, v1⟩ := x
    simp [goJsonEncodeFields, ih]

theorem keysIncreasing_goJsonEncodeFields (fields : List (List Nat × Value)) :
    keysIncreasing (goJsonEncodeFields fields) = keysIncreasing fields := by
  induction fields with
  | nil => simp [goJsonEncodeFields, keysIncreasing]
  | cons x rest ih =>
    obtain ⟨k1, v1⟩ := x
    simp only [goJsonEncodeFields, keysIncreasing, ih, all_goJsonEncodeFields]

/-- A string literal written by the encoder is read back as the string. -/
theorem parseString_encodeString (s tail : List Nat) (h : validUtf8 s = true) (fuel : Nat)
    (hf : (encodeStringBody s.length s).length < fuel) :
    parseString fuel [] (encodeStringBody s.length s ++ 34 :: tail) = some (s, tail) := by
  have := parseString_encodeStringBody s.length s h s.length (le_refl _) fuel [] tail hf
  simpa using this

theorem parseValue_string (f d : Nat) (s tail : List Nat) (h : validUtf8 s = true) :
    parseValue (f + 1) d (encodeString s ++ tail) = some (.string s, tail) := by
  simp only [encodeString, List.cons_append, List.append_assoc, List.singleton_append,
    List.nil_append, parseValue]
  rw [skipSpace_cons 34 _ (by omega)]
  simp only [show (34 : Nat) ≠ 110 by omega, show (34 : Nat) ≠ 116 by omega,
    show (34 : Nat) ≠ 102 by omega, if_false, if_true]
  rw [parseString_encodeString s tail h _ (by simp; omega)]

theorem parseValue_number (f d : Nat) (lit tail : List Nat)
    (h : jsonClean d (.number lit) = true) (ht : valueEnds tail) :
    parseValue (f + 1) d (lit ++ tail) = some (.number lit, tail) := by
  simp only [jsonClean, Bool.and_eq_true, decide_eq_true_eq] at h
  obtain ⟨c, rest, h1, h2⟩ := parseNumber_head lit lit [] h.1
  have hp := parseNumber_append lit tail lit [] ht.numberEnds h.1
  rw [h1] at hp
  simp only [List.cons_append, List.nil_append] at hp
  subst h1
  simp only [List.cons_append, parseValue]
  rw [skipSpace_cons c _ (by omega)]
  simp only [show c ≠ 110 by omega, show c ≠ 116 by omega, show c ≠ 102 by omega,
    show c ≠ 34 by omega, show c ≠ 91 by omega, show c ≠ 123 by omega, if_false, hp, h.2,
    if_true]

theorem joinComma_single (x : List Nat) : joinComma [x] = x := by
  simp [joinComma]

theorem joinComma_cons_cons (x y : List Nat) (rest : List (List Nat)) :
    joinComma (x :: y :: rest) = x ++ 44 :: joinComma (y :: rest) := by
  simp [joinComma]

theorem goJsonEncode_length_pos (d : Nat) (v : Value) (h : jsonClean d v = true) :
    0 < (goJsonEncode v).length := by
  obtain ⟨c, r, h1, -⟩ := goJsonEncode_head d v h
  rw [h1]
  simp

/-- Reading back what the encoder wrote, by induction on the fuel: a value,
the elements of an array, the members of an object. -/
theorem parse_goJsonEncode (fuel : Nat) :
    (∀ v d tail, jsonClean d v = true → (goJsonEncode v).length ≤ fuel → valueEnds tail →
        parseValue fuel d (goJsonEncode v ++ tail) = some (v, tail)) ∧
    (∀ e es d acc tail, jsonCleanElems d (e :: es) = true →
        (joinComma (goJsonEncodeElems (e :: es))).length < fuel →
        parseElems fuel d acc (joinComma (goJsonEncodeElems (e :: es)) ++ 93 :: tail) =
          some (acc ++ e :: es, tail)) ∧
    (∀ f fs d acc tail, jsonCleanFields d (f :: fs) = true → keysIncreasing (f :: fs) = true →
        (∀ x ∈ acc, ∀ y ∈ f :: fs, x.1 ≠ y.1) →
        (joinComma ((goJsonEncodeFields (f :: fs)).map
          (fun kv => encodeString kv.1 ++ 58 :: kv.2))).length < fuel →
        parseMembers fuel d acc (joinComma ((goJsonEncodeFields (f :: fs)).map
          (fun kv => encodeString kv.1 ++ 58 :: kv.2)) ++ 125 :: tail) =
          some (acc ++ f :: fs, tail)) := by
  induction fuel with
  | zero =>
    refine ⟨?_, ?_, ?_⟩
    · intro v d tail hc hl _
      have := goJsonEncode_length_pos d v hc
      omega
    · intro e es d acc tail _ hl
      omega
    · intro f fs d acc tail _ _ _ hl
      omega
  | succ n ih =>
    obtain ⟨ihV, ihE, ihF⟩ := ih
    refine ⟨?_, ?_, ?_⟩
    · intro v d tail hc hl ht
      cases v with
      | nil => simp [goJsonEncode, parseValue, skipSpace]
      | bool b => cases b <;> simp [goJsonEncode, parseValue, skipSpace]
      | number lit =>
        simp only [goJsonEncode]
        exact parseValue_number n d lit tail hc ht
      | string s =>
        simp only [goJsonEncode]
        exact parseValue_string n d s tail (by simpa [jsonClean] using hc)
      | array elems =>
        simp only [jsonClean, Bool.and_eq_true, decide_eq_true_eq] at hc
        have hd : ¬ 10000 ≤ d := by omega
        cases elems with
        | nil =>
          simp [goJsonEncode, goJsonEncodeElems, joinComma, parseValue, skipSpace, hd]
        | cons e es =>
          have hce : jsonClean (d + 1) e = true := by
            have := hc.2
            simp only [jsonCleanElems, Bool.and_eq_true] at this
            exact this.1
          obtain ⟨c, r, hcr, hstart⟩ := goJsonEncode_head (d + 1) e hce
          have hshape : ∃ r2, joinComma (goJsonEncodeElems (e :: es)) ++ 93 :: tail = c :: r2 := by
            cases es with
            | nil => exact ⟨_, by simp only [goJsonEncodeElems, joinComma_single, hcr]; rfl⟩
            | cons e2 es2 =>
              exact ⟨_, by simp only [goJsonEncodeElems, joinComma_cons_cons, hcr]; rfl⟩
          obtain ⟨r2, hr2⟩ := hshape
          simp only [goJsonEncode, List.cons_append, List.append_assoc, List.singleton_append,
            List.nil_append, List.length_cons, List.length_append, List.length_nil] at hl ⊢
          simp only [parseValue]
          rw [skipSpace_cons 91 _ (by omega)]
          simp only [show (91 : Nat) ≠ 110 by omega, show (91 : Nat) ≠ 116 by omega,
            show (91 : Nat) ≠ 102 by omega, show (91 : Nat) ≠ 34 by omega, if_false, if_true, hd]
          rw [ihE e es (d + 1) [] tail hc.2 (by omega)]
          rw [hr2, skipSpace_cons c _ (by unfold valueStart at hstart; omega)]
          split
          · rename_i heq
            simp only [List.cons.injEq] at heq
            unfold valueStart at hstart
            omega
          · simp
      | object fields =>
        simp only [jsonClean, Bool.and_eq_true, decide_eq_true_eq] at hc
        have hd : ¬ 10000 ≤ d := by omega
        cases fields with
        | nil =>
          simp [goJsonEncode, goJsonEncodeFields, sortByKey, joinComma, parseValue, skipSpace, hd]
        | cons f fs =>
          have hsort : sortByKey (goJsonEncodeFields (f :: fs)) = goJsonEncodeFields (f :: fs) :=
            sortByKey_of_increasing _ (by rw [keysIncreasing_goJsonEncodeFields]; exact hc.1.2)
          have hshape : ∃ r2, joinComma ((goJsonEncodeFields (f :: fs)).map
              (fun kv => encodeString kv.1 ++ 58 :: kv.2)) ++ 125 :: tail = 34 :: r2 := by
            obtain ⟨k, v⟩ := f
            cases fs with
            | nil =>
              exact ⟨_, by
                simp only [goJsonEncodeFields, List.map, joinComma_single, encodeString]; rfl⟩
            | cons f2 fs2 =>
              obtain ⟨k2, v2⟩ := f2
              exact ⟨_, by
                simp only [goJsonEncodeFields, List.map, joinComma_cons_cons, encodeString]; rfl⟩
          obtain ⟨r2, hr2⟩ := hshape
          simp only [goJsonEncode, hsort, List.cons_append, List.append_assoc,
            List.singleton_append, List.nil_append, List.length_cons, List.length_append,
            List.length_nil] at hl ⊢
          simp only [parseValue]
          rw [skipSpace_cons 123 _ (by omega)]
          simp only [show (123 : Nat) ≠ 110 by omega, show (123 : Nat) ≠ 116 by omega,
            show (123 : Nat) ≠ 102 by omega, show (123 : Nat) ≠ 34 by omega,
            show (123 : Nat) ≠ 91 by omega, if_false, if_true, hd]
          rw [ihF f fs (d + 1) [] tail hc.2 hc.1.2 (by simp) (by omega)]
          rw [hr2, skipSpace_cons 34 _ (by omega)]
          simp
      | binary b => simp [jsonClean] at hc
    · intro e es d acc tail hc hl
      simp only [jsonCleanElems, Bool.and_eq_true] at hc
      have hpos := goJsonEncode_length_pos d e hc.1
      simp only [parseElems]
      cases es with
      | nil =>
        simp only [goJsonEncodeElems, joinComma_single] at hl ⊢
        rw [ihV e d (93 :: tail) hc.1 (by omega) (Or.inr ⟨tail, Or.inr (Or.inl rfl)⟩)]
        simp only []
        rw [skipSpace_cons 93 _ (by omega)]
      | cons e2 es2 =>
        simp only [goJsonEncodeElems, joinComma_cons_cons, List.append_assoc, List.cons_append,
          List.length_append, List.length_cons] at hl ⊢
        rw [ihV e d _ hc.1 (by omega) (Or.inr ⟨_, Or.inl rfl⟩)]
        simp only []
        rw [skipSpace_cons 44 _ (by omega)]
        simp only []
        have := ihE e2 es2 d (acc ++ [e]) tail hc.2 (by
          simp only [goJsonEncodeElems]
          omega)
        simp only [goJsonEncodeElems] at this
        rw [this]
        simp
    · intro f fs d acc tail hc hk hfresh hl
      obtain ⟨k, v⟩ := f
      simp only [jsonCleanFields, Bool.and_eq_true] at hc
      simp only [keysIncreasing, Bool.and_eq_true, List.all_eq_true] at hk
      have hpos := goJsonEncode_length_pos d v hc.1.2
      have hset : setField k v acc = acc ++ [(k, v)] :=
        setField_fresh k v acc (fun x hx => hfresh x hx (k, v) (List.mem_cons_self _ _))
      simp only [parseMembers]
      cases fs with
      | nil =>
        simp only [goJsonEncodeFields, List.map, joinComma_single, encodeString,
          List.cons_append, List.append_assoc, List.singleton_append, List.nil_append,
          List.length_append, List.length_cons, List.length_singleton] at hl ⊢
        rw [skipSpace_cons 34 _ (by omega)]
        simp only []
        rw [parseString_encodeString k _ hc.1.1 _ (by simp; omega)]
        simp only []
        rw [skipSpace_cons 58 _ (by omega)]
        simp only []
        rw [ihV v d (125 :: tail) hc.1.2 (by omega) (Or.inr ⟨tail, Or.inr (Or.inr rfl)⟩)]
        simp only []
        rw [skipSpace_cons 125 _ (by omega)]
        simp only [hset]
      | cons f2 fs2 =>
        obtain ⟨k2, v2⟩ := f2
        simp only [goJsonEncodeFields, List.map, joinComma_cons_cons, encodeString,
          List.cons_append, List.append_assoc, List.singleton_append, List.nil_append,
          List.length_append, List.length_cons, List.length_singleton] at hl ⊢
        rw [skipSpace_cons 34 _ (by omega)]
        simp only []
        rw [parseString_encodeString k _ hc.1.1 _ (by simp; omega)]
        simp only []
        rw [skipSpace_cons 58 _ (by omega)]
        simp only []
        rw [ihV v d _ hc.1.2 (by omega) (Or.inr ⟨_, Or.inl rfl⟩)]
        simp only []
        rw [skipSpace_cons 44 _ (by omega)]
        simp only [hset]
        have hfresh2 : ∀ x ∈ acc ++ [(k, v)], ∀ y ∈ (k2, v2) :: fs2, x.1 ≠ y.1 := by
          intro x hx y hy
          rcases List.mem_append.mp hx with hx | hx
          · exact hfresh x hx y (List.mem_cons_of_mem _ hy)
          · simp only [List.mem_singleton] at hx
            subst hx
            intro heq
            have h1 := hk.1 y hy
            have heq2 : k = y.1 := heq
            rw [← heq2, keyLt_irrefl] at h1
            exact Bool.false_ne_true h1
        have := ihF (k2, v2) fs2 d (acc ++ [(k, v)]) tail hc.2 hk.2 hfresh2 (by
          simp only [goJsonEncodeFields, List.map, encodeString, List.cons_append,
            List.append_assoc, List.singleton_append, List.nil_append]
          omega)
        simp only [goJsonEncodeFields, List.map, encodeString, List.cons_append,
          List.append_assoc, List.singleton_append, List.nil_append] at this
        rw [this]

/-- The decoder reads back what the encoder wrote for a payload that stands
for JSON data. -/
theorem goJsonDecode_goJsonEncode (v : Value) (h : jsonClean 0 v = true) :
    goJsonDecode (goJsonEncode v) = some v := by
  have := (parse_goJsonEncode ((goJsonEncode v).length + 1)).1 v 0 [] h (by omega) (Or.inl rfl)
  simp only [List.append_nil] at this
  simp only [goJsonDecode, readValue, this]

/-! ## Lemmas for the claims on attachments, absent payloads and the round trip -/

theorem decimalDigitsAux_spec (fuel n : Nat) (acc : List Nat) (hf : 0 < fuel)
    (h : n < 10 ^ fuel) :
    ∃ ds, decimalDigitsAux fuel n acc = ds ++ acc ∧ ds ≠ [] ∧
      (∀ c ∈ ds, isDigit c = true) ∧
      ∀ m, ds.foldl (fun n c => n * 10 + (c - 48)) m = m * 10 ^ ds.length + n := by
  induction fuel generalizing n acc with
  | zero => omega
  | succ fuel ih =>
    by_cases hn : n < 10
    · refine ⟨[n + 48], by simp [decimalDigitsAux, hn], by simp, ?_, ?_⟩
      · intro c hc
        have : c = n + 48 := by simpa using hc
        subst this
        simp only [isDigit, decide_eq_true_eq]
        omega
      · intro m
        simp
    · have hfuel : 0 < fuel := by
        rcases Nat.eq_zero_or_pos fuel with h0 | h0
        · subst h0
          simp at h
          omega
        · exact h0
      have hdiv : n / 10 < 10 ^ fuel := by
        rw [Nat.div_lt_iff_lt_mul (by norm_num)]
        rw [pow_succ] at h
        exact h
      obtain ⟨ds, h1, h2, h3, h4⟩ := ih (n / 10) ((n % 10 + 48) :: acc) hfuel hdiv
      refine ⟨ds ++ [n % 10 + 48], ?_, by simp, ?_, ?_⟩
      · simp [decimalDigitsAux, hn, h1]
      · intro c hc
        rcases List.mem_append.1 hc with hc | hc
        · exact h3 c hc
        · have : c = n % 10 + 48 := by simpa using hc
          subst this
          simp only [isDigit, decide_eq_true_eq]
          omega
      · intro m
        rw [List.foldl_append, h4 m]
        simp only [List.foldl_cons, List.foldl_nil, List.length_append, List.length_singleton,
          Nat.add_sub_cancel]
        rw [pow_succ]
        have := Nat.div_add_mod n 10
        nlinarith [this]

/-- The decimal digits of a 64-bit value are a non-empty run of digits whose
decimal value is that value. -/
theorem decimalDigits_spec (n : Nat) (h : n < 2 ^ 64) :
    decimalDigits n ≠ [] ∧ (∀ c ∈ decimalDigits n, isDigit c = true) ∧
      decimalValue (decimalDigits n) = n := by
  have h20 : n < 10 ^ 20 := lt_trans h (by norm_num)
  obtain ⟨ds, h1, h2, h3, h4⟩ := decimalDigitsAux_spec 20 n [] (by norm_num) h20
  have hd : decimalDigits n = ds := by
    unfold decimalDigits
    rw [h1, List.append_nil]
  rw [hd]
  refine ⟨h2, h3, ?_⟩
  unfold decimalValue
  rw [h4 0]
  simp

/-- C14, refuted as stated: the frame `51-["a"]` is accepted as a BINARY_EVENT
packet with `Attachments` 1 although its data holds no Placeholder; and on a
new decoder the frame `50-["a",{"isPlaceholder":true,"index":0}]` is emitted
with `Attachments` 0 although its data holds one Placeholder. -/
theorem decodeString_attachments_not_placeholders :
    decodeString goJsonDecode (NewStringBufferString (ascii "51-[\"a\"]")) =
      .ok { Type_ := BinaryEvent, Nsp := ascii "/", Data := .array [.string (ascii "a")],
            ID := none, Attachments := some 1 } ∧
    some 1 ≠ some (countPlaceholders (.array [.string (ascii "a")])) ∧
    (Add goJsonDecode specOps NewDecoder
      (.string (ascii "50-[\"a\",\x7b\"isPlaceholder\":true,\"index\":0\x7d]"))).emitted =
      [{ Type_ := BinaryEvent, Nsp := ascii "/",
         Data := .array [.string (ascii "a"),
                         .object [(ascii "isPlaceholder", .bool true),
                                  (ascii "index", .number (ascii "0"))]],
         ID := none, Attachments := some 0 }] ∧
    some 0 ≠ some (countPlaceholders
      (.array [.string (ascii "a"),
               .object [(ascii "isPlaceholder", .bool true),
                        (ascii "index", .number (ascii "0"))]])) :=
  ⟨rfl, by decide, rfl, by decide⟩

/-- C14, amended: for every packet of a binary type that `decodeString`
produces from a text frame, the frame is the type byte, a non-empty run of
digits `count`, `'-'` and a rest, and `Attachments` is the decimal value of
`count` (below 2^64), whatever the data holds. -/
theorem decodeString_attachments_of_count (J : List Nat → Option Value) (s : List Nat)
    (p : Packet) (h : decodeString J (NewStringBufferString s) = .ok p)
    (hb : p.Type_ = BinaryEvent ∨ p.Type_ = BinaryAck) :
    ∃ count text, s = p.Type_ :: (count ++ 45 :: text) ∧ count ≠ [] ∧
      (∀ c ∈ count, isDigit c = true) ∧ decimalValue count < 2 ^ 64 ∧
      p.Attachments = some (decimalValue count) := by
  obtain ⟨pre, text, hs, hp⟩ := accepted_shape J s p h
  subst hs
  obtain ⟨att, hn, -, hsome⟩ := accepted_from_namespace J p p.Type_ pre text hp h
  have hk : p.Attachments = att := (decodeFromNamespace_keeps J _ p _ hn).2
  rcases hp with ⟨h1, h2, -⟩ | ⟨-, count, hpre, -⟩
  · rcases hb with hb | hb
    · exact absurd hb h1
    · exact absurd hb h2
  · obtain ⟨hpu, hatt⟩ := hsome count hpre
    obtain ⟨hne, hdig, hlt, hv⟩ := (ParseUint_ok_iff count _).1 hpu
    refine ⟨count, text, by rw [hpre]; simp, hne, hdig, hlt, ?_⟩
    rw [hk]
    cases att with
    | none => cases hatt
    | some a =>
      have : a = decimalValue count := by simpa using hv
      rw [this]

/-- C14 amended, at the frame `51-["a"]`: `Attachments` is the value of the
count `1`. -/
theorem decodeString_attachments_of_count_witness :
    ∃ count text, ascii "51-[\"a\"]" = BinaryEvent :: (count ++ 45 :: text) ∧ count ≠ [] ∧
      (∀ c ∈ count, isDigit c = true) ∧ decimalValue count < 2 ^ 64 ∧
      some 1 = some (decimalValue count) :=
  decodeString_attachments_of_count goJsonDecode (ascii "51-[\"a\"]")
    { Type_ := BinaryEvent, Nsp := ascii "/", Data := .array [.string (ascii "a")],
      ID := none, Attachments := some 1 } rfl (Or.inl rfl)

/-- The decoder on a frame of a non-binary type made of its parts: the type
byte, the namespace `"/" ++ ns` (written only when `ns` is not empty, with its
`','`), a run of digits that fits in 64 bits, and either nothing or a payload
that starts with a byte other than a digit and `'/'`, decodes to `data` and is
valid for the type. -/
theorem decodeString_of_parts (J : List Nat → Option Value) (ty : Nat)
    (ns ds rest : List Nat) (data : Value)
    (hv : PacketType.Valid ty = true) (h1 : ty ≠ BinaryEvent) (h2 : ty ≠ BinaryAck)
    (hns : 44 ∉ ns) (hd : ∀ c ∈ ds, isDigit c = true) (hfit : decimalValue ds < 2 ^ 64)
    (hrest : (rest = [] ∧ data = .nil) ∨
      (∃ c t, rest = c :: t ∧ isDigit c = false ∧ c ≠ 47 ∧ J rest = some data ∧
        isPayloadValid ty data = true)) :
    decodeString J (NewStringBufferString
        (ty :: ((if ns = [] then [] else 47 :: (ns ++ [44])) ++ (ds ++ rest)))) =
      .ok { Type_ := ty, Nsp := 47 :: ns, Data := data,
            ID := if ds = [] then none else some (decimalValue ds),
            Attachments := none } := by
  have hm : maximalRun ds rest := by
    refine ⟨hd, ?_⟩
    rcases hrest with ⟨hr, -⟩ | ⟨c, t, hr, hc, -⟩
    · exact Or.inl hr
    · exact Or.inr ⟨c, t, hr, hc⟩
  have hother : ds ++ rest = [] ∨ ∃ c t, ds ++ rest = c :: t ∧ c ≠ 47 := by
    cases ds with
    | nil =>
      rcases hrest with ⟨hr, -⟩ | ⟨c, t, hr, -, hc, -⟩
      · exact Or.inl (by simp [hr])
      · exact Or.inr ⟨c, t, by simp [hr], hc⟩
    | cons c t =>
      refine Or.inr ⟨c, t ++ rest, rfl, ?_⟩
      intro hc
      have := hd c (List.mem_cons_self _ _)
      rw [hc] at this
      exact absurd this (by decide)
  have hdata : ∀ q : Packet, q.Type_ = ty →
      lookUpData J q (NewStringBufferString rest) = .ok { q with Data := data } ∨
      (lookUpData J q (NewStringBufferString rest) = .ok q ∧ data = .nil) := by
    intro q hq
    rcases hrest with ⟨hr, hdn⟩ | ⟨c, t, hr, -, -, hj, hval⟩
    · right
      exact ⟨lookUpData_nil J q _ (by simp [NewStringBufferString, hr]), hdn⟩
    · left
      have hne : (NewStringBufferString rest).unread ≠ [] := by
        simp [NewStringBufferString, hr]
      rw [lookUpData_cons J q _ hne]
      have hj2 : J (NewStringBufferString rest).unread = some data := hj
      rw [hj2]
      simp only []
      rw [hq, if_pos hval]
  have hid : ∀ q : Packet, q.Type_ = ty → q.ID = none → q.Data = .nil →
      decodeFromId J q (NewStringBufferString (ds ++ rest)) =
        .ok { q with Data := data,
                     ID := if ds = [] then none else some (decimalValue ds) } := by
    intro q hq hqid hqd
    rw [decodeFromId_run J q _ ds rest rfl hm]
    by_cases hds : ds = []
    · rw [if_pos hds, if_pos hds]
      rcases hdata q hq with h | ⟨h, hdn⟩
      · rw [h]
        cases q
        simp only at hqid
        rw [hqid]
      · rw [h, hdn]
        cases q
        simp only at hqid hqd
        rw [hqid, hqd]
    · rw [if_neg hds, if_neg hds, (ParseUint_ok_iff ds _).2 ⟨hds, hd, hfit, rfl⟩]
      simp only []
      rcases hdata { q with ID := some (decimalValue ds) } hq with h | ⟨h, hdn⟩
      · rw [h]
      · rw [h, hdn]
        cases q
        simp only at hqd
        rw [hqd]
  rw [decodeString_nonbinary J ty _ hv h1 h2]
  by_cases hns0 : ns = []
  · rw [if_pos hns0, List.nil_append, decodeFromNamespace_other J _ _ hother, hns0]
    exact hid _ rfl rfl rfl
  · rw [if_neg hns0, List.cons_append, List.append_assoc, List.singleton_append,
      decodeFromNamespace_comma J _ ns _ hns]
    exact hid _ rfl rfl rfl


theorem encodeAsString_nonbinary (jsonEncode : Value → List Nat) (P : Packet)
    (h1 : P.Type_ ≠ BinaryEvent) (h2 : P.Type_ ≠ BinaryAck) :
    ∃ ds rest, encodeAsString jsonEncode P =
        P.Type_ :: ((if P.Nsp = [] ∨ P.Nsp = [47] then [] else P.Nsp ++ [44]) ++ (ds ++ rest)) ∧
      (P.ID = none → ds = []) ∧ (∀ id, P.ID = some id → ds = decimalDigits id) ∧
      (P.Data = .nil → rest = []) ∧ (P.Data ≠ .nil → rest = jsonEncode P.Data) := by
  refine ⟨(match P.ID with
      | some id => decimalDigits id
      | none => []),
    (match P.Data with
      | .nil => []
      | data => jsonEncode data), ?_, ?_, ?_, ?_, ?_⟩
  · unfold encodeAsString
    rw [if_neg (by tauto)]
    simp
  · intro h; rw [h]
  · intro id h; rw [h]
  · intro h; rw [h]
  · intro h
    cases hd : P.Data with
    | nil => exact absurd hd h
    | _ => rfl


/-- The decoder on a frame of a non-binary type whose text after the type byte
starts with a byte other than a digit and `'/'` and from which the JSON decoder
returns no value: the `invalid payload` error. -/
theorem decodeString_payload_refused (J : List Nat → Option Value) (ty c : Nat)
    (t : List Nat) (hv : PacketType.Valid ty = true) (h1 : ty ≠ BinaryEvent)
    (h2 : ty ≠ BinaryAck) (hc1 : isDigit c = false) (hc2 : c ≠ 47) (hj : J (c :: t) = none) :
    decodeString J (NewStringBufferString (ty :: c :: t)) = .error .invalidPayload := by
  rw [decodeString_nonbinary J ty _ hv h1 h2,
    decodeFromNamespace_other J _ _ (Or.inr ⟨c, t, rfl, hc2⟩),
    decodeFromId_run J _ _ [] (c :: t) rfl ⟨by simp, Or.inr ⟨c, t, rfl, hc1⟩⟩]
  rw [if_pos rfl, lookUpData_cons J _ _ (by simp [NewStringBufferString])]
  have : (NewStringBufferString (c :: t)).unread = c :: t := rfl
  rw [this, hj]

/-- The text of a value inside `n` arrays: `n` opening brackets, the text of
the value, `n` closing brackets. -/
theorem goJsonEncode_nestArrays (n : Nat) (v : Value) :
    goJsonEncode (nestArrays n v) =
      List.replicate n 91 ++ (goJsonEncode v ++ List.replicate n 93) := by
  induction n with
  | zero => simp [nestArrays]
  | succ n ih =>
    simp only [nestArrays, goJsonEncode, goJsonEncodeElems, joinComma_single, ih]
    rw [List.replicate_succ, List.replicate_succ' n 93]
    simp

/-- The JSON decoder refuses a text that opens more arrays than the nesting
limit allows: `k + 1` opening brackets inside `d` arrays, with `d + k` at
least 10000. -/
theorem parseValue_too_deep (k : Nat) : ∀ fuel d t, 10000 ≤ d + k →
    parseValue fuel d (List.replicate (k + 1) 91 ++ t) = none := by
  induction k with
  | zero =>
    intro fuel d t h
    cases fuel with
    | zero => simp [parseValue]
    | succ f =>
      simp only [List.replicate, List.cons_append, List.nil_append, parseValue]
      rw [skipSpace_cons 91 _ (by omega)]
      simp [show 10000 ≤ d by omega]
  | succ k ih =>
    intro fuel d t h
    cases fuel with
    | zero => simp [parseValue]
    | succ f =>
      rw [List.replicate_succ, List.cons_append]
      simp only [parseValue]
      rw [skipSpace_cons 91 _ (by omega)]
      by_cases hd : 10000 ≤ d
      · simp [hd]
      · have hih := ih (f - 1) (d + 1) t (by omega)
        rw [List.replicate_succ, List.cons_append] at hih ⊢
        cases f with
        | zero => simp [hd, skipSpace, parseElems]
        | succ f2 =>
          simp only [Nat.add_sub_cancel] at hih
          simp [hd, skipSpace, parseElems, hih]

/-- The round trip for any JSON library that reads back what it writes for the
data of the packet.  For every packet `P` of a non-binary type whose namespace
is absent or starts with `'/'` and holds no `','`, whose id (if any) is a
64-bit value, and whose data is absent or valid for the type of `P` and such
that `jsonEncode` writes it as text that starts with the opening byte of an
object, an array or a string and `J` reads that text back as the same value:
decoding the text frame that encoding `P` produces yields `P` with the
namespace `"/"` when it was absent and without attachments. -/
theorem encode_decode_with (J : List Nat → Option Value)
    (jsonEncode : Value → List Nat) (P : Packet)
    (hty : P.Type_ = Connect ∨ P.Type_ = Disconnect ∨ P.Type_ = Event ∨ P.Type_ = Ack ∨
      P.Type_ = ConnectError)
    (hnsp : P.Nsp = [] ∨ ∃ ns, P.Nsp = 47 :: ns ∧ 44 ∉ ns)
    (hid : ∀ id, P.ID = some id → id < 2 ^ 64)
    (hdata : P.Data = .nil ∨
      (isPayloadValid P.Type_ P.Data = true ∧ J (jsonEncode P.Data) = some P.Data ∧
        ∃ c t, jsonEncode P.Data = c :: t ∧ (c = 123 ∨ c = 91 ∨ c = 34))) :
    decodeString J (NewStringBufferString (encodeAsString jsonEncode P)) =
      .ok { P with Nsp := if P.Nsp = [] then [47] else P.Nsp, Attachments := none } := by
  have hv : PacketType.Valid P.Type_ = true := by
    rcases hty with h | h | h | h | h <;> (rw [h]; decide)
  have h1 : P.Type_ ≠ BinaryEvent := by
    rcases hty with h | h | h | h | h <;> (rw [h]; decide)
  have h2 : P.Type_ ≠ BinaryAck := by
    rcases hty with h | h | h | h | h <;> (rw [h]; decide)
  obtain ⟨ds, rest, henc, hds0, hds1, hrest0, hrest1⟩ :=
    encodeAsString_nonbinary jsonEncode P h1 h2
  -- the namespace, as "/" followed by `ns`
  obtain ⟨ns, hns, hfinal, hpart⟩ : ∃ ns, 44 ∉ ns ∧
      (if P.Nsp = [] then [47] else P.Nsp) = 47 :: ns ∧
      (if P.Nsp = [] ∨ P.Nsp = [47] then [] else P.Nsp ++ [44]) =
        (if ns = [] then [] else 47 :: (ns ++ [44])) := by
    rcases hnsp with h | ⟨ns, h, hns⟩
    · exact ⟨[], by simp, by simp [h], by simp [h]⟩
    · refine ⟨ns, hns, by simp [h], ?_⟩
      by_cases hn : ns = []
      · simp [h, hn]
      · simp [h, hn]
  -- the id digits
  have hdig : (∀ c ∈ ds, isDigit c = true) ∧ decimalValue ds < 2 ^ 64 ∧
      (if ds = [] then none else some (decimalValue ds)) = P.ID := by
    cases hi : P.ID with
    | none =>
      rw [hds0 hi]
      exact ⟨by simp, by simp [decimalValue], by simp⟩
    | some id =>
      have hlt := hid id hi
      obtain ⟨e1, e2, e3⟩ := decimalDigits_spec id hlt
      rw [hds1 id hi]
      exact ⟨e2, by rw [e3]; exact hlt, by rw [if_neg e1, e3]⟩
  -- the payload bytes
  have hrest : (rest = [] ∧ P.Data = .nil) ∨
      (∃ c t, rest = c :: t ∧ isDigit c = false ∧ c ≠ 47 ∧ J rest = some P.Data ∧
        isPayloadValid P.Type_ P.Data = true) := by
    by_cases hn : P.Data = .nil
    · exact Or.inl ⟨hrest0 hn, hn⟩
    · rcases hdata with h | ⟨hval, hj, c, t, hc, hc3⟩
      · exact absurd h hn
      · right
        rw [hrest1 hn]
        refine ⟨c, t, hc, ?_, ?_, hj, hval⟩
        · rcases hc3 with h | h | h <;> (rw [h]; decide)
        · rcases hc3 with h | h | h <;> (rw [h]; decide)
  rw [henc, hpart,
    decodeString_of_parts J P.Type_ ns ds rest P.Data hv h1 h2 hns hdig.1 hdig.2.1 hrest,
    hdig.2.2, hfinal]

/-- The text of a payload that is valid for a non-binary type and not absent
starts with the opening byte of an object, an array or a string. -/
theorem goJsonEncode_head_of_valid (ty : Nat) (data : Value)
    (hty : ty = Connect ∨ ty = Disconnect ∨ ty = Event ∨ ty = Ack ∨ ty = ConnectError)
    (hval : isPayloadValid ty data = true) (hn : data ≠ .nil) :
    ∃ c t, goJsonEncode data = c :: t ∧ (c = 123 ∨ c = 91 ∨ c = 34) := by
  cases data with
  | nil => exact absurd rfl hn
  | bool b =>
    rcases hty with h | h | h | h | h <;>
      (subst h
       simp [isPayloadValid, Connect, Disconnect, Event, Ack, ConnectError, BinaryEvent] at hval)
  | number lit =>
    rcases hty with h | h | h | h | h <;>
      (subst h
       simp [isPayloadValid, Connect, Disconnect, Event, Ack, ConnectError, BinaryEvent] at hval)
  | string s =>
    exact ⟨34, _, by simp only [goJsonEncode, encodeString]; rfl, Or.inr (Or.inr rfl)⟩
  | array elems => exact ⟨91, _, by simp only [goJsonEncode]; rfl, Or.inr (Or.inl rfl)⟩
  | object fields => exact ⟨123, _, by simp only [goJsonEncode]; rfl, Or.inl rfl⟩
  | binary b =>
    rcases hty with h | h | h | h | h <;>
      (subst h
       simp [isPayloadValid, Connect, Disconnect, Event, Ack, ConnectError, BinaryEvent] at hval)

/-- Every array is a valid payload of an ACK packet. -/
theorem isPayloadValid_ack_array (elems : List Value) :
    isPayloadValid Ack (.array elems) = true := rfl

/-- The decoder refuses the frame that the encoder writes for an ACK packet
whose data is `null` inside `n + 1` arrays, with `n` at least 10000: the text
is nested deeper than the JSON decoder allows. -/
theorem encode_decode_too_deep (n : Nat) (h : 10000 ≤ n) :
    decodeString goJsonDecode (NewStringBufferString (encodeAsString goJsonEncode
        { Type_ := Ack, Nsp := ascii "/", Data := .array [nestArrays n .nil],
          ID := none, Attachments := none })) = .error .invalidPayload := by
  have henc : encodeAsString goJsonEncode
      { Type_ := Ack, Nsp := ascii "/", Data := .array [nestArrays n .nil],
        ID := none, Attachments := none } =
      Ack :: 91 :: (List.replicate n 91 ++
        (goJsonEncode .nil ++ (List.replicate n 93 ++ [93]))) := by
    simp only [encodeAsString, goJsonEncode, goJsonEncodeElems, joinComma_single,
      goJsonEncode_nestArrays]
    simp [Ack, BinaryEvent, BinaryAck, ascii]
  rw [henc]
  apply decodeString_payload_refused goJsonDecode Ack 91 _ (by decide) (by decide) (by decide)
    (by decide) (by decide)
  have hnone := parseValue_too_deep n
    ((91 :: (List.replicate n 91 ++
      (goJsonEncode .nil ++ (List.replicate n 93 ++ [93])))).length + 1) 0
    (goJsonEncode .nil ++ (List.replicate n 93 ++ [93])) (by omega)
  rw [List.replicate_succ, List.cons_append] at hnone
  simp only [goJsonDecode, readValue, hnone]

/-- C17, refuted as stated, at two packets without binary leaves, each with
the namespace `/` and data valid for its type.  The EVENT packet with data
`["\xff"]`, a string of the one byte 255, which is not valid UTF-8: the encoder
writes the frame `2["\ufffd"]` and the decoder returns the data `["\uFFFD"]`,
a string of the three bytes 239, 191, 189.  The ACK packet whose data is `null`
inside 10001 arrays: the decoder refuses its frame as nested too deep, with the
`invalid payload` error. -/
theorem encode_decode_roundtrip_fails :
    isPayloadValid Event (.array [.string [255]]) = true ∧
    encodeAsString goJsonEncode
        { Type_ := Event, Nsp := ascii "/", Data := .array [.string [255]],
          ID := none, Attachments := none } = ascii "2[\"\\ufffd\"]" ∧
    decodeString goJsonDecode (NewStringBufferString (encodeAsString goJsonEncode
        { Type_ := Event, Nsp := ascii "/", Data := .array [.string [255]],
          ID := none, Attachments := none })) =
      .ok { Type_ := Event, Nsp := ascii "/", Data := .array [.string [239, 191, 189]],
            ID := none, Attachments := none } ∧
    (Value.array [.string [255]] ≠ Value.array [.string [239, 191, 189]]) ∧
    isPayloadValid Ack (.array [nestArrays 10000 .nil]) = true ∧
    decodeString goJsonDecode (NewStringBufferString (encodeAsString goJsonEncode
        { Type_ := Ack, Nsp := ascii "/", Data := .array [nestArrays 10000 .nil],
          ID := none, Attachments := none })) = .error .invalidPayload :=
  ⟨rfl, rfl, rfl, by simp, isPayloadValid_ack_array _,
    encode_decode_too_deep 10000 (Nat.le_refl _)⟩

/-- C17, amended: round trip without binaries, on the encoder modelled from the
spec and the model of `encoding/json` above.  For every packet `P` of a
non-binary type whose namespace is absent or starts with `'/'` and holds no
`','`, whose id (if any) is a 64-bit value, and whose data is absent or valid
for the type of `P` and `jsonClean`, that is, without binary leaves, with
every string and object key valid UTF-8, every number a JSON number literal in
the range of float64, arrays and objects nested at most 10000 deep, and every
object given by its entries in increasing key order (the one list that stands
for a Go map): decoding the text frame that encoding `P` produces yields `P`,
with the namespace `"/"` when it was absent and without attachments. -/
theorem encode_decode_roundtrip (P : Packet)
    (hty : P.Type_ = Connect ∨ P.Type_ = Disconnect ∨ P.Type_ = Event ∨ P.Type_ = Ack ∨
      P.Type_ = ConnectError)
    (hnsp : P.Nsp = [] ∨ ∃ ns, P.Nsp = 47 :: ns ∧ 44 ∉ ns)
    (hid : ∀ id, P.ID = some id → id < 2 ^ 64)
    (hdata : P.Data = .nil ∨
      (isPayloadValid P.Type_ P.Data = true ∧ jsonClean 0 P.Data = true)) :
    decodeString goJsonDecode (NewStringBufferString (encodeAsString goJsonEncode P)) =
      .ok { P with Nsp := if P.Nsp = [] then [47] else P.Nsp, Attachments := none } := by
  apply encode_decode_with goJsonDecode goJsonEncode P hty hnsp hid
  by_cases hn : P.Data = .nil
  · exact Or.inl hn
  · rcases hdata with h | ⟨hval, hclean⟩
    · exact absurd h hn
    · exact Or.inr ⟨hval, goJsonDecode_goJsonEncode P.Data hclean,
        goJsonEncode_head_of_valid P.Type_ P.Data hty hval hn⟩

/-- C17, amended, at the EVENT packet with namespace `/admin`, id 12 and data
`["chat message","hi"]`, whose frame is `2/admin,12["chat message","hi"]`, and
at a CONNECT packet with no namespace and the data `{"token":"<a&b>\n"}`,
whose frame is `0{"token":"\u003ca\u0026b\u003e\n"}` and which comes back with
the namespace `/`. -/
theorem encode_decode_roundtrip_witness :
    encodeAsString goJsonEncode
        { Type_ := Event, Nsp := ascii "/admin",
          Data := .array [.string (ascii "chat message"), .string (ascii "hi")],
          ID := some 12, Attachments := none } =
      ascii "2/admin,12[\"chat message\",\"hi\"]" ∧
    decodeString goJsonDecode (NewStringBufferString (encodeAsString goJsonEncode
        { Type_ := Event, Nsp := ascii "/admin",
          Data := .array [.string (ascii "chat message"), .string (ascii "hi")],
          ID := some 12, Attachments := none })) =
      .ok { Type_ := Event, Nsp := ascii "/admin",
            Data := .array [.string (ascii "chat message"), .string (ascii "hi")],
            ID := some 12, Attachments := none } ∧
    encodeAsString goJsonEncode
        { Type_ := Connect, Nsp := [],
          Data := .object [(ascii "token", .string (ascii "<a&b>\n"))],
          ID := none, Attachments := none } =
      ascii "0\x7b\"token\":\"\\u003ca\\u0026b\\u003e\\n\"\x7d" ∧
    decodeString goJsonDecode (NewStringBufferString (encodeAsString goJsonEncode
        { Type_ := Connect, Nsp := [],
          Data := .object [(ascii "token", .string (ascii "<a&b>\n"))],
          ID := none, Attachments := none })) =
      .ok { Type_ := Connect, Nsp := ascii "/",
            Data := .object [(ascii "token", .string (ascii "<a&b>\n"))],
            ID := none, Attachments := none } :=
  ⟨rfl,
   encode_decode_roundtrip
     { Type_ := Event, Nsp := ascii "/admin",
       Data := .array [.string (ascii "chat message"), .string (ascii "hi")],
       ID := some 12, Attachments := none }
     (Or.inr (Or.inr (Or.inl rfl))) (Or.inr ⟨ascii "admin", rfl, by decide⟩)
     (fun id h => by
       have h2 : 12 = id := Option.some.inj h
       rw [← h2]
       decide)
     (Or.inr ⟨rfl, by decide⟩),
   rfl,
   encode_decode_roundtrip
     { Type_ := Connect, Nsp := [],
       Data := .object [(ascii "token", .string (ascii "<a&b>\n"))],
       ID := none, Attachments := none }
     (Or.inl rfl) (Or.inl rfl)
     (fun id h => Option.noConfusion h)
     (Or.inr ⟨rfl, by decide⟩)⟩

end parser
